import Mathlib

/-!
A verification development for the ABI-fragment subsystem: the hand-written
tokenizer, the `TokenString` cursor operations, the `ParamType` type tree with
its text-path and interchange-object parsers, the fragment variants with their
parsers and formatters, and the synchronous/asynchronous value walkers.

The definitions below are a shallow embedding of the TypeScript source.
Thrown exceptions are modelled with `Except Err`; mutation of a cursor over a
fixed token array is modelled by threading an explicit offset; the few loops
whose termination is not structural take an explicit fuel argument, always
called with enough fuel for any input (a token consumed per step, bounded by
the token count).
-/

/-- The errors the subsystem can raise.  Each constructor corresponds to one
throw site (or one family of `assertArgument` calls) in the source; the
original string messages are summarised by the constructor names. -/
inductive Err where
  /-- lexer: `unexpected token ... at position ...` (also the `invalid token`
  throwError helper, which reports the offset the scan stopped at). -/
  | unexpected (offset : Nat)
  /-- lexer, on `)` with no open parenthesis: `no matching open bracket`. -/
  | noOpenParen (offset : Nat)
  /-- lexer, on `]` with no bracket context: `missing opening bracket`. -/
  | missingOpenBracket
  /-- lexer, on `,` with an empty comma stack: the source dereferences
  `tokens[undefined]` and crashes with a TypeError. -/
  | noCommaContext
  /-- TokenString.peek / pop past the end: `out-of-bounds`. -/
  | outOfBounds
  /-- TokenString.popKeyword: `expected keyword ...`. -/
  | expectedKeyword (t : String)
  /-- TokenString.popType: `expected TYPE; got ...`. -/
  | expectedType (t : String)
  /-- TokenString.popParams / popParen when the next token is not `(`. -/
  | badStart
  /-- consumeKeywords: `duplicate keywords`. -/
  | duplicateKeyword (k : String)
  /-- allowSingle: `conflicting types: ...`. -/
  | conflictingTypes (ks : List String)
  /-- consumeName: `expected <type>, got <keyword>`. -/
  | expectedName (want got : String)
  /-- consumeGas: `invalid gas`. -/
  | invalidGas
  /-- ParamType.from (text path): `leftover tokens`. -/
  | leftoverTokens
  /-- consumeEoi: `unexpected tokens: ...`. -/
  | unexpectedTokens
  /-- verifyBasicType: `invalid type`. -/
  | invalidType (t : String)
  /-- verifyBasicType: `invalid bytes length`. -/
  | invalidBytesLength (t : String)
  /-- verifyBasicType: `invalid numeric width`. -/
  | invalidNumericWidth (t : String)
  /-- ParamType.from text path, `indexed` seen with allowIndexed false
  (`throw new Error("")`). -/
  | notIndexable
  /-- ParamType.from object path: `parameter cannot be indexed`. -/
  | cannotBeIndexed
  /-- ParamType.from object path: `invalid name`. -/
  | invalidName
  /-- NamedFragment constructor: `invalid identifier`. -/
  | invalidIdentifier
  /-- the private ParamType constructor consistency checks
  (`throw new Error("")`), and the crashes of a null components /
  arrayChildren dereference. -/
  | ctorBad
  /-- Fragment.from: `unsupported frgament object` / `unsupported type`. -/
  | unsupportedFragment
  /-- FallbackFragment.from: `type must be fallback or receive`. -/
  | fallbackBadType
  /-- FallbackFragment.from: `receive cannot have arguments`. -/
  | receiveHasArguments
  /-- FallbackFragment.from: `invalid fallback inputs`. -/
  | invalidFallbackInputs
  /-- FallbackFragment.from: `fallback cannot be constants`. -/
  | fallbackConstant
  /-- FallbackFragment.from: `invalid fallback outputs`. -/
  | invalidFallbackOutputs
  /-- FallbackFragment.from object path: `invalid fallback description`. -/
  | invalidFallbackDescription
  /-- StructFragment.format: `@TODO`. -/
  | todoStructFormat
  /-- JSON.stringify applied to a bigint gas value throws a TypeError. -/
  | bigintUnserializable
  /-- walk / walkAsync: `invlaid array value`. -/
  | invalidArrayValue
  /-- walk / walkAsync: `array is wrong length`. -/
  | arrayWrongLength
  /-- walk / walkAsync: `invlaid tuple value`. -/
  | invalidTupleValue
  /-- walkAsync: `cannot use object value with unnamed components`. -/
  | unnamedComponent
  /-- walkAsync: `missing value for component ...`. -/
  | missingComponent (k : String)
  /-- fuel exhaustion of the embedding; never reached when the wrappers
  compute the fuel. -/
  | noFuel
deriving DecidableEq

/-- The kind of a token.  In the source this is a string; `OPEN_BRACKET` is
renamed to `BRACKET` as soon as it is created, and `CLOSE_BRACKET` tokens are
merged away during lexing, so these are the kinds that survive. -/
inductive TokType where
  | OPEN_PAREN | CLOSE_PAREN | BRACKET | COMMA | AT
  | KEYWORD | TYPE | ID | NUMBER
deriving DecidableEq

/-- One token.  `matchIdx` is the source field `match` (renamed: `match` is a
Lean keyword).  Index fields use `Int` with the source's `-1` sentinel. -/
structure Tok where
  type : TokType
  text : String
  offset : Nat
  depth : Nat
  matchIdx : Int
  linkBack : Int
  linkNext : Int
  value : Int
deriving DecidableEq

/-- JS `\s` on the characters this grammar can meet. -/
def isWsChar (c : Char) : Bool :=
  c = ' ' || c = '\t' || c = '\n' || c = '\x0d' || c = '\x0b' || c = '\x0c'

def isDigitChar (c : Char) : Bool := '0' ≤ c && c ≤ '9'

/-- First character of `regexIdentifier`: `[a-zA-Z$_]`. -/
def isIdStart (c : Char) : Bool :=
  ('a' ≤ c && c ≤ 'z') || ('A' ≤ c && c ≤ 'Z') || c = '$' || c = '_'

/-- Continuation characters of `regexIdentifier`: `[a-zA-Z0-9$_]`. -/
def isIdCont (c : Char) : Bool := isIdStart c || isDigitChar c

/-- `_kwVisib`. -/
def kwVisib : List String :=
  ["constant", "external", "internal", "payable", "private", "public", "pure", "view"]

/-- `_kwTypes`. -/
def kwTypes : List String :=
  ["constructor", "error", "event", "fallback", "function", "receive", "struct"]

/-- `_kwModifiers`. -/
def kwModifiers : List String :=
  ["calldata", "memory", "storage", "payable", "indexed"]

/-- `Keywords` = the setified join of the four groups; membership in this
list is membership in that set (the duplicate `payable` is harmless). -/
def keywords : List String :=
  kwTypes ++ kwModifiers ++ ["tuple", "returns"] ++ kwVisib

/-- Numeric value of a digit string (`parseInt` / `getNumber` / `getBigInt`
on the all-digit strings the lexer feeds them). -/
def digitsVal (l : List Char) : Nat :=
  l.foldl (fun a c => a * 10 + (c.toNat - '0'.toNat)) 0

/-- If `pat` is a leading part of `l`, the remainder of `l`. -/
def stripLit : List Char → List Char → Option (List Char)
  | [], r => some r
  | _ :: _, [] => none
  | p :: ps, x :: xs => if x = p then stripLit ps xs else none

/-- `regexType = ^(address|bool|bytes([0-9]*)|string|u?int([0-9]*))`.
Returns `(group2, group3)`: the digits captured after `bytes`, and the digits
captured after `u?int`; a group that did not participate or captured nothing
is `[]` (the source only ever tests those groups for JS-truthiness, where
`undefined` and `""` coincide).  The regex is only anchored on the left, so
this is a match on a leading part of the input: trailing characters are
ignored. -/
def regexTypeMatch (l : List Char) : Option (List Char × List Char) :=
  match stripLit ['a', 'd', 'd', 'r', 'e', 's', 's'] l with
  | some _ => some ([], [])
  | none =>
    match stripLit ['b', 'o', 'o', 'l'] l with
    | some _ => some ([], [])
    | none =>
      match stripLit ['b', 'y', 't', 'e', 's'] l with
      | some r => some (r.takeWhile isDigitChar, [])
      | none =>
        match stripLit ['s', 't', 'r', 'i', 'n', 'g'] l with
        | some _ => some ([], [])
        | none =>
          match stripLit ['u', 'i', 'n', 't'] l with
          | some r => some ([], r.takeWhile isDigitChar)
          | none =>
            match stripLit ['i', 'n', 't'] l with
            | some r => some ([], r.takeWhile isDigitChar)
            | none => none

/-- Mutable state of the `lex` scan: the tokens emitted so far and the two
auxiliary stacks of token indices (modelled head-first; the source pushes and
pops at the array end). -/
structure LexState where
  tokens : List Tok
  brackets : List Nat
  commas : List Nat
deriving DecidableEq

/-- Replace the token at index `i` by `f` of it (the source's in-place
mutation of an already-emitted token). -/
def modifyTok (l : List Tok) (i : Nat) (f : Tok → Tok) : List Tok :=
  match l.get? i with
  | some t => l.set i (f t)
  | none => l

/-- The token-producing part of one `lex` while-loop iteration: given the
state, the offset after the whitespace strip, and the remaining characters
(nonempty, split into head and tail), either fail or return the new state,
the new source offset and the remaining characters. -/
def lexStep (st : LexState) (off1 : Nat) (c : Char) (cs : List Char) :
    Except Err (LexState × Nat × List Char) :=
  let idx := st.tokens.length
  let dep := st.brackets.length
  if c = '(' then
    let tok : Tok := ⟨.OPEN_PAREN, "(", off1, dep, -1, -1, -1, -1⟩
    .ok (⟨st.tokens ++ [tok], idx :: st.brackets, idx :: st.commas⟩, off1 + 1, cs)
  else if c = ')' then
    match st.brackets, st.commas with
    | b :: bs, cm :: cms =>
      let tok : Tok := ⟨.CLOSE_PAREN, ")", off1, dep - 1, (b : Int), (cm : Int), -1, -1⟩
      let toks := modifyTok (modifyTok st.tokens b
        (fun t => { t with matchIdx := (idx : Int) })) cm
        (fun t => { t with linkNext := (idx : Int) })
      .ok (⟨toks ++ [tok], bs, cms⟩, off1 + 1, cs)
    | [], _ => .error (.noOpenParen off1)
    | _ :: _, [] => .error .noCommaContext
  else if c = ',' then
    match st.commas with
    | cm :: cms =>
      let tok : Tok := ⟨.COMMA, ",", off1, dep, -1, (cm : Int), -1, -1⟩
      let toks := modifyTok st.tokens cm (fun t => { t with linkNext := (idx : Int) })
      .ok (⟨toks ++ [tok], st.brackets, idx :: cms⟩, off1 + 1, cs)
    | [] => .error .noCommaContext
  else if c = '[' then
    let tok : Tok := ⟨.BRACKET, "[", off1, dep, -1, -1, -1, -1⟩
    .ok (⟨st.tokens ++ [tok], st.brackets, st.commas⟩, off1 + 1, cs)
  else if c = ']' then
    -- the CLOSE_BRACKET token is pushed and immediately popped again; a
    -- preceding NUMBER token is folded into the BRACKET before it
    let pair : Option String × List Tok :=
      match st.tokens.getLast? with
      | some t => if t.type = .NUMBER then (some t.text, st.tokens.dropLast) else (none, st.tokens)
      | none => (none, st.tokens)
    match pair.2.getLast? with
    | some b =>
      if b.type = .BRACKET then
        let suffix := (match pair.1 with | some d => d | none => "") ++ "]"
        let newVal : Int := match pair.1 with
          | some d => (digitsVal d.data : Int)
          | none => b.value
        let toks := pair.2.dropLast ++ [{ b with text := b.text ++ suffix, value := newVal }]
        .ok (⟨toks, st.brackets, st.commas⟩, off1 + 1, cs)
      else .error .missingOpenBracket
    | none => .error .missingOpenBracket
  else if c = '@' then
    let tok : Tok := ⟨.AT, "@", off1, dep, -1, -1, -1, -1⟩
    .ok (⟨st.tokens ++ [tok], st.brackets, st.commas⟩, off1 + 1, cs)
  else if isIdStart c then
    let word := c :: cs.takeWhile isIdCont
    let text := String.mk word
    let kind : TokType :=
      if keywords.contains text then .KEYWORD
      else if (regexTypeMatch word).isSome then .TYPE
      else .ID
    let tok : Tok := ⟨kind, text, off1, dep, -1, -1, -1, -1⟩
    .ok (⟨st.tokens ++ [tok], st.brackets, st.commas⟩, off1 + word.length, cs.dropWhile isIdCont)
  else if isDigitChar c then
    let word := c :: cs.takeWhile isDigitChar
    let tok : Tok := ⟨.NUMBER, String.mk word, off1, dep, -1, -1, -1, -1⟩
    .ok (⟨st.tokens ++ [tok], st.brackets, st.commas⟩, off1 + word.length, cs.dropWhile isDigitChar)
  else .error (.unexpected off1)

/-- The `lex` while-loop: as long as characters remain, strip leading
whitespace, then produce one token (`lexStep`) from what is left - an
iteration entered on trailing whitespace finds nothing after the strip and
fails with `unexpected`.  Every iteration consumes at least one character,
so fuel `r.length + 1` always suffices. -/
def lexLoop : Nat → LexState → Nat → List Char → Except Err (List Tok)
  | 0, _, _, _ => .error .noFuel
  | fuel + 1, st, off, r =>
    match r with
    | [] => .ok st.tokens
    | rh :: rt =>
      let ws := (rh :: rt).takeWhile isWsChar
      let off1 := off + ws.length
      match (rh :: rt).dropWhile isWsChar with
      | [] => .error (.unexpected off1)
      | c :: cs =>
        match lexStep st off1 c cs with
        | .error e => .error e
        | .ok (st2, off2, rest) => lexLoop fuel st2 off2 rest

/-- `lex`: scan a signature string into its token list.  Each loop iteration
consumes at least one character, so `length + 1` fuel always suffices. -/
def lex (s : String) : Except Err (List Tok) :=
  lexLoop (s.data.length + 1) ⟨[], [], []⟩ 0 s.data

/-! ### TokenString

A `TokenString` is a fixed token array with a cursor (`#offset`).  The
methods mutate only the cursor, so they are modelled as functions of the
token list and the current offset that return the new offset. -/

/-- `TokenString.peek`, throwing `out-of-bounds` past the end. -/
def peekTok (ts : List Tok) (o : Nat) : Except Err Tok :=
  match ts.get? o with
  | some t => .ok t
  | none => .error .outOfBounds

/-- `TokenString.peekType`: the text of the next token when it has the wanted
kind, else `null` (also `null` when the stream is exhausted). -/
def peekType (ts : List Tok) (o : Nat) (k : TokType) : Option String :=
  match ts.get? o with
  | some t => if t.type = k then some t.text else none
  | none => none

/-- `TokenString.peekKeyword`. -/
def peekKeyword (ts : List Tok) (o : Nat) (allowed : List String) : Option String :=
  match peekType ts o .KEYWORD with
  | some t => if allowed.contains t then some t else none
  | none => none

/-- `TokenString.popType`. -/
def popType (ts : List Tok) (o : Nat) (k : TokType) : Except Err (String × Nat) := do
  let t ← peekTok ts o
  if t.type = k then .ok (t.text, o + 1) else .error (.expectedType t.text)

/-- `TokenString.popKeyword`. -/
def popKeyword (ts : List Tok) (o : Nat) (allowed : List String) : Except Err (String × Nat) := do
  let t ← peekTok ts o
  if t.type = .KEYWORD && allowed.contains t.text then .ok (t.text, o + 1)
  else .error (.expectedKeyword t.text)

/-- `TokenString.#subTokenString`: the slice `[from, to)` of the token array,
with the index-valued fields re-based to the slice. -/
def subTokenString (ts : List Tok) (a b : Nat) : List Tok :=
  ((ts.drop a).take (b - a)).map (fun t =>
    { t with matchIdx := t.matchIdx - (a : Int),
             linkBack := t.linkBack - (a : Int),
             linkNext := t.linkNext - (a : Int) })

/-- The while-loop of `TokenString.popParams`, walking the comma chain.
`stop` is the `match` index of the opening parenthesis. -/
def popParamsGo (ts : List Tok) (stop : Int) : Nat → Nat → List (List Tok) →
    Except Err (List (List Tok))
  | 0, _, _ => .error .noFuel
  | fuel + 1, o, acc =>
    if (o : Int) < stop - 1 then
      match ts.get? o with
      | some t => popParamsGo ts stop fuel t.linkNext.toNat
          (acc ++ [subTokenString ts (o + 1) t.linkNext.toNat])
      | none => .error .outOfBounds
    else .ok acc

/-- `TokenString.popParams`: the per-parameter sub-streams of a
`( ... , ... )` group, and the cursor moved past the closing parenthesis. -/
def popParams (ts : List Tok) (o : Nat) : Except Err (List (List Tok) × Nat) := do
  let top ← peekTok ts o
  if top.type = .OPEN_PAREN then do
    let items ← popParamsGo ts top.matchIdx (ts.length + 1) o []
    .ok (items, top.matchIdx.toNat + 1)
  else .error .badStart

/-! ### ParamType -/

/-- The canonical type tree.  Fields as in the source class: `indexed`,
`components`, `arrayLength` and `arrayChildren` are `null` (`none`) outside
their variant. -/
inductive ParamType where
  | mk (name : String) (type : String) (baseType : String) (indexed : Option Bool)
      (components : Option (List ParamType)) (arrayLength : Option Int)
      (arrayChildren : Option ParamType)

def ParamType.name : ParamType → String
  | .mk n _ _ _ _ _ _ => n

def ParamType.type : ParamType → String
  | .mk _ t _ _ _ _ _ => t

def ParamType.baseType : ParamType → String
  | .mk _ _ b _ _ _ _ => b

def ParamType.indexed : ParamType → Option Bool
  | .mk _ _ _ i _ _ _ => i

def ParamType.components : ParamType → Option (List ParamType)
  | .mk _ _ _ _ c _ _ => c

def ParamType.arrayLength : ParamType → Option Int
  | .mk _ _ _ _ _ l _ => l

def ParamType.arrayChildren : ParamType → Option ParamType
  | .mk _ _ _ _ _ _ a => a

/-- The consistency checks of the private `ParamType` constructor: an array
node carries exactly the array fields, a tuple node carries exactly the
components, and any violation throws. -/
def mkParamType (name ty baseTy : String) (indexed : Option Bool)
    (comps : Option (List ParamType)) (alen : Option Int) (achild : Option ParamType) :
    Except Err ParamType :=
  if baseTy = "array" then
    if alen.isNone || achild.isNone then .error .ctorBad
    else if baseTy = "tuple" then
      if comps.isNone then .error .ctorBad
      else .ok (.mk name ty baseTy indexed comps alen achild)
    else if comps.isSome then .error .ctorBad
    else .ok (.mk name ty baseTy indexed comps alen achild)
  else if alen.isSome || achild.isSome then .error .ctorBad
  else if baseTy = "tuple" then
    if comps.isNone then .error .ctorBad
    else .ok (.mk name ty baseTy indexed comps alen achild)
  else if comps.isSome then .error .ctorBad
  else .ok (.mk name ty baseTy indexed comps alen achild)

mutual

/-- `ParamType.format`.  The `"json"` mode returns the `JSON.stringify` of
the interchange object built by the source (keys in insertion order,
`undefined`-valued keys omitted; the child objects spliced back in by
`JSON.parse` round-trip to their own stringified text, so they are inlined
verbatim).  String values in this grammar are identifier-like, so the
stringify escaping is the identity on them. -/
def ParamType.format : ParamType → String → String
  | .mk name ty baseTy indexed comps alen achild, fm =>
    if fm = "json" then
      "\x7b\"type\":\"" ++ (if baseTy = "tuple" then "tuple" else ty) ++ "\"" ++
      (if name = "" then "" else ",\"name\":\"" ++ name ++ "\"") ++
      (match indexed with
        | some b => ",\"indexed\":" ++ (if b then "true" else "false")
        | none => "") ++
      (if baseTy = "tuple" then
        ",\"components\":[" ++
          String.intercalate "," (match comps with
            | some cs => ParamType.formatList cs fm
            | none => []) ++ "]"
      else "") ++ "\x7d"
    else
      (if baseTy = "array" then
        (match achild with
          | some a => ParamType.format a fm
          | none => "") ++
        "[" ++ (match alen with
          | some l => if l < 0 then "" else toString l
          | none => "") ++ "]"
      else if baseTy = "tuple" then
        (if fm = "sighash" then "" else ty) ++ "(" ++
        String.intercalate (if fm = "full" then ", " else ",")
          (match comps with
            | some cs => ParamType.formatList cs fm
            | none => []) ++ ")"
      else ty) ++
      (if fm = "sighash" then ""
       else
        (if indexed = some true then " indexed" else "") ++
        (if fm = "full" && name ≠ "" then " " ++ name else ""))

/-- `components.map((c) => c.format(format))`. -/
def ParamType.formatList : List ParamType → String → List String
  | [], _ => []
  | c :: cs, fm => ParamType.format c fm :: ParamType.formatList cs fm

end

/-- `consumeKeywords`' while-loop.  All call sites in the source pass an
`allowed` set, so the parameter is not optional here. -/
def consumeKeywordsGo (ts : List Tok) (allowed : List String) :
    Nat → Nat → List String → Except Err (List String × Nat)
  | 0, _, _ => .error .noFuel
  | fuel + 1, o, acc =>
    match peekType ts o .KEYWORD with
    | none => .ok (acc, o)
    | some kw =>
      if !allowed.contains kw then .ok (acc, o)
      else if acc.contains kw then .error (.duplicateKeyword kw)
      else consumeKeywordsGo ts allowed fuel (o + 1) (acc ++ [kw])

/-- `consumeKeywords`: pop every next keyword that lies in `allowed`,
failing on a duplicate; returns them in consumption order (the source
returns a `Set`; only membership of the result is ever used). -/
def consumeKeywords (ts : List Tok) (o : Nat) (allowed : List String) :
    Except Err (List String × Nat) :=
  consumeKeywordsGo ts allowed (ts.length + 1) o []

/-- The `for (const key in allowed.keys())` loop of `allowSingle`: a
`for..in` loop visits the enumerable property names of its operand, and a
`Set` iterator object has none, so the loop body never runs and the loop
yields no keys.  (A `for..of` loop would have yielded the set's elements.) -/
def forInOverSetIterator (_s : List String) : List String := []

/-- `allowSingle`: as written in the source.  Because the iteration is a
`for..in` over a Set iterator, `included` is always empty and the conflict
error is unreachable. -/
def allowSingle (set allowed : List String) : Except Err Unit :=
  let included := (forInOverSetIterator allowed).filter (fun k => set.contains k)
  if included.length > 1 then .error (.conflictingTypes included) else .ok ()

/-- `consumeMutability`. -/
def consumeMutability (ts : List Tok) (o : Nat) : Except Err (String × Nat) := do
  let (modifiers, o1) ← consumeKeywords ts o kwVisib
  allowSingle modifiers ["constant", "payable", "nonpayable"]
  allowSingle modifiers ["pure", "view", "payable", "nonpayable"]
  if modifiers.contains "view" then .ok ("view", o1)
  else if modifiers.contains "pure" then .ok ("pure", o1)
  else if modifiers.contains "payable" then .ok ("payable", o1)
  else if modifiers.contains "nonpayable" then .ok ("nonpayable", o1)
  else if modifiers.contains "constant" then .ok ("view", o1)
  else .ok ("nonpayable", o1)

/-- `consumeName`: an optional leading fragment-kind keyword (which must be
the expected one) followed by an `ID`. -/
def consumeName (ty : String) (ts : List Tok) (o : Nat) : Except Err (String × Nat) := do
  let o1 ← match peekKeyword ts o kwTypes with
    | some kw => if kw ≠ ty then .error (.expectedName ty kw) else pure (o + 1)
    | none => pure o
  popType ts o1 .ID

/-- `consumeGas`: an optional `@ NUMBER` suffix. -/
def consumeGas (ts : List Tok) (o : Nat) : Except Err (Option Nat × Nat) :=
  match peekType ts o .AT with
  | some _ =>
    match peekType ts (o + 1) .NUMBER with
    | some txt => .ok (some (digitsVal txt.data), o + 2)
    | none => .error .invalidGas
  | none => .ok (none, o)

/-- `consumeEoi`. -/
def consumeEoi (ts : List Tok) (o : Nat) : Except Err Unit :=
  if ts.length - o ≠ 0 then .error .unexpectedTokens else .ok ()

/-- `verifyBasicType`: canonicalize `uint`/`int`, bound the `bytesN` and
`(u)intN` widths, reject anything the (left-anchored) elementary-type regex
does not match. -/
def verifyBasicType (ty : String) : Except Err String :=
  match regexTypeMatch ty.data with
  | none => .error (.invalidType ty)
  | some (g2, g3) =>
    if ty = "uint" then .ok "uint256"
    else if ty = "int" then .ok "int256"
    else if g2 ≠ [] then
      let len := digitsVal g2
      if len ≠ 0 && len ≤ 32 then .ok ty else .error (.invalidBytesLength ty)
    else if g3 ≠ [] then
      let size := digitsVal g3
      if size ≠ 0 && size ≤ 256 && size % 8 = 0 then .ok ty
      else .error (.invalidNumericWidth ty)
    else .ok ty

/-- The `while (obj.length && obj.peekType("BRACKET"))` loop of the
`ParamType.from` text path: each bracket token wraps the type built so far
into an array node. -/
def arrayLoop (ts : List Tok) : Nat → Nat → String → String →
    Option (List ParamType) → Option Int → Option ParamType →
    Except Err (Nat × String × String × Option (List ParamType) × Option Int × Option ParamType)
  | 0, _, _, _, _, _, _ => .error .noFuel
  | fuel + 1, o, ty, baseTy, comps, alen, achild =>
    if o < ts.length then
      match ts.get? o with
      | some t =>
        if t.type = .BRACKET then do
          let child ← mkParamType "" ty baseTy none comps alen achild
          arrayLoop ts fuel (o + 1) (ty ++ t.text) "array" none (some t.value) (some child)
        else .ok (o, ty, baseTy, comps, alen, achild)
      | none => .ok (o, ty, baseTy, comps, alen, achild)
    else .ok (o, ty, baseTy, comps, alen, achild)

/-- The `ParamType.from` text path on an already-lexed stream, with fuel for
the recursion into tuple components (each component is a strictly shorter
token slice, so `tokens.length + 1` fuel always suffices). -/
def ParamType.fromTokensF : Nat → List Tok → Bool → Except Err ParamType
  | 0, _, _ => .error .noFuel
  | fuel + 1, ts, allowIndexed => do
    let (kws, o1) ← consumeKeywords ts 0 ["tuple"]
    let (o2, ty, baseTy, comps) ←
      if kws.contains "tuple" || (peekType ts o1 .OPEN_PAREN).isSome then do
        -- Tuple
        let (items, o2) ← popParams ts o1
        let comps ← items.mapM (fun it => ParamType.fromTokensF fuel it false)
        let ty := "tuple(" ++
          String.intercalate "," (comps.map (fun c => ParamType.format c "sighash")) ++ ")"
        pure (o2, ty, "tuple", some comps)
      else do
        -- Normal
        let (t, o2) ← popType ts o1 .TYPE
        let ty ← verifyBasicType t
        pure (o2, ty, ty, (none : Option (List ParamType)))
    -- Check for Array
    let (o3, ty, baseTy, comps, alen, achild) ←
      arrayLoop ts (ts.length + 1) o2 ty baseTy comps none none
    let (kws2, o4) ← consumeKeywords ts o3 kwModifiers
    let indexed : Option Bool ←
      if kws2.contains "indexed" then
        if !allowIndexed then .error .notIndexable else pure (some true)
      else pure none
    let (name, o5) :=
      match peekType ts o4 .ID with
      | some n => (n, o4 + 1)
      | none => ("", o4)
    if ts.length - o5 ≠ 0 then .error .leftoverTokens
    else mkParamType name ty baseTy indexed comps alen achild

/-- `ParamType.from` on a lexed `TokenString` (cursor at 0). -/
def ParamType.fromTokens (ts : List Tok) (allowIndexed : Bool) : Except Err ParamType :=
  ParamType.fromTokensF (ts.length + 1) ts allowIndexed

/-- `ParamType.from` on a string: lex, then parse. -/
def ParamType.fromString (s : String) (allowIndexed : Bool) : Except Err ParamType := do
  let ts ← lex s
  ParamType.fromTokens ts allowIndexed

/-! ### ParamType, interchange-object path -/

/-- The interchange description of one parameter (`JsonFragmentType`; the
`internalType` field is never read by this subsystem and is omitted).  The
`type` field is taken as present: the code dereferences it unconditionally. -/
inductive JsonParamType where
  | mk (name : Option String) (indexed : Option Bool) (type : String)
      (components : Option (List JsonParamType))

def JsonParamType.name : JsonParamType → Option String
  | .mk n _ _ _ => n

def JsonParamType.indexed : JsonParamType → Option Bool
  | .mk _ i _ _ => i

def JsonParamType.type : JsonParamType → String
  | .mk _ _ t _ => t

def JsonParamType.components : JsonParamType → Option (List JsonParamType)
  | .mk _ _ _ c => c

/-- `regexArrayType = /^(.*)\[([0-9]*)\]$/`: with the greedy `.*`, a match
peels the last `[digits]` suffix; returns `(group1, group2)`. -/
def arrayTypeMatch (l : List Char) : Option (List Char × List Char) :=
  match l.reverse with
  | ']' :: rest =>
    let ds := rest.takeWhile isDigitChar
    match rest.dropWhile isDigitChar with
    | '[' :: front => some (front.reverse, ds.reverse)
    | _ => none
  | _ => none

/-- `name.match(regexIdentifier)` is JS-truthy exactly when the name begins
with an identifier-start character: the regex is anchored only on the left
and its tail is `*`-quantified, so it never constrains what follows. -/
def identAtStart (s : String) : Bool :=
  match s.data with
  | [] => false
  | c :: _ => isIdStart c

/-- A string that is an identifier in full: `[a-zA-Z$_][a-zA-Z0-9$_]*` with
nothing after it. -/
def identFull (s : String) : Bool :=
  match s.data with
  | [] => false
  | c :: cs => isIdStart c && cs.all isIdCont

mutual

/-- Fuel bound for `ParamType.fromObjectF`: one plus the type-string length
plus the total size of the component tree.  Every recursive call of the
object path strictly shrinks it (the array case shortens the type string and
keeps the components; the tuple case moves to one component). -/
def JsonParamType.fuelSize : JsonParamType → Nat
  | .mk _ _ t none => 1 + t.data.length
  | .mk _ _ t (some cs) => 1 + t.data.length + JsonParamType.fuelSizeList cs

def JsonParamType.fuelSizeList : List JsonParamType → Nat
  | [] => 0
  | c :: cs => JsonParamType.fuelSize c + JsonParamType.fuelSizeList cs

end

/-- The `ParamType.from` interchange-object path (the final branch of the
source `from`), with fuel. -/
def ParamType.fromObjectF : Nat → JsonParamType → Bool → Except Err ParamType
  | 0, _, _ => .error .noFuel
  | fuel + 1, obj, allowIndexed => do
    -- assertArgument(!name || (typeof(name) === "string" && name.match(regexIdentifier)))
    match obj.name with
    | some n => if n ≠ "" && !identAtStart n then .error .invalidName else pure ()
    | none => pure ()
    let indexed : Option Bool ←
      match obj.indexed with
      | none => pure none
      | some b => if !allowIndexed then .error .cannotBeIndexed else pure (some b)
    let name := obj.name.getD ""
    match arrayTypeMatch obj.type.data with
    | some (base, ds) =>
      let alen : Int := if ds = [] then -1 else (digitsVal ds : Int)
      let achild ← ParamType.fromObjectF fuel (.mk none none (String.mk base) obj.components) false
      mkParamType name obj.type "array" indexed none (some alen) (some achild)
    | none =>
      -- type.substring(0, 5) === "tuple(" can never hold (five characters
      -- against six) and is carried over verbatim
      if obj.type = "tuple" || (obj.type.take 5 = "tuple(" || obj.type.take 1 = "(") then do
        let comps : Option (List ParamType) ←
          match obj.components with
          | some cs => do
            let l ← cs.mapM (fun c => ParamType.fromObjectF fuel c false)
            pure (some l)
          | none => pure none
        mkParamType name obj.type "tuple" indexed comps none none
      else do
        let ty ← verifyBasicType obj.type
        mkParamType name ty ty indexed none none none

/-- `ParamType.from` on an interchange object. -/
def ParamType.fromObject (obj : JsonParamType) (allowIndexed : Bool) : Except Err ParamType :=
  ParamType.fromObjectF obj.fuelSize obj allowIndexed

/-! ### Fragments -/

/-- The six fragment variants.  `FunctionFragment.stateMutability` is an
`Option` because the interchange path passes `obj.stateMutability` through
unchecked, and that field may be absent; the text path always supplies one.
The derived fields `constant` and `payable` are accessor functions below. -/
inductive Fragment where
  | errorFrag (name : String) (inputs : List ParamType)
  | eventFrag (name : String) (inputs : List ParamType) (anonymous : Bool)
  | constructorFrag (inputs : List ParamType) (payable : Bool) (gas : Option Nat)
  | fallbackFrag (inputs : List ParamType) (payable : Bool)
  | functionFrag (name : String) (stateMutability : Option String)
      (inputs : List ParamType) (outputs : List ParamType) (gas : Option Nat)
  | structFrag (name : String) (inputs : List ParamType)

/-- `FunctionFragment.constant`: derived in the constructor as
`stateMutability === "view" || stateMutability === "pure"`. -/
def functionConstant (sm : Option String) : Bool :=
  sm = some "view" || sm = some "pure"

/-- `FunctionFragment.payable`: derived as `stateMutability === "payable"`. -/
def functionPayable (sm : Option String) : Bool :=
  sm = some "payable"

/-- The `NamedFragment` constructor check:
`typeof(name) === "string" && name.match(regexIdentifier)`. -/
def checkFragmentName (n : Option String) : Except Err String :=
  match n with
  | some s => if s ≠ "" && identAtStart s then .ok s else .error .invalidIdentifier
  | none => .error .invalidIdentifier

/-- `consumeParams`. -/
def consumeParams (ts : List Tok) (o : Nat) (allowIndexed : Bool) :
    Except Err (List ParamType × Nat) := do
  let (items, o1) ← popParams ts o
  let ps ← items.mapM (fun it => ParamType.fromTokens it allowIndexed)
  pure (ps, o1)

/-- `ErrorFragment.from` on a lexed stream. -/
def ErrorFragment.fromTokens (ts : List Tok) : Except Err Fragment := do
  let (name, o1) ← consumeName "error" ts 0
  let (inputs, o2) ← consumeParams ts o1 false
  consumeEoi ts o2
  let n ← checkFragmentName (some name)
  pure (.errorFrag n inputs)

/-- `EventFragment.from` on a lexed stream. -/
def EventFragment.fromTokens (ts : List Tok) : Except Err Fragment := do
  let (name, o1) ← consumeName "event" ts 0
  let (inputs, o2) ← consumeParams ts o1 true
  let (kws, o3) ← consumeKeywords ts o2 ["anonymous"]
  consumeEoi ts o3
  let n ← checkFragmentName (some name)
  pure (.eventFrag n inputs (kws.contains "anonymous"))

/-- `ConstructorFragment.from` on a lexed stream. -/
def ConstructorFragment.fromTokens (ts : List Tok) : Except Err Fragment := do
  let (_, o1) ← consumeKeywords ts 0 ["constructor"]
  let (inputs, o2) ← consumeParams ts o1 false
  let (kws, o3) ← consumeKeywords ts o2 ["payable"]
  let (gas, o4) ← consumeGas ts o3
  consumeEoi ts o4
  pure (.constructorFrag inputs (kws.contains "payable") gas)

/-- `FallbackFragment.from` on a lexed stream. -/
def FallbackFragment.fromTokens (ts : List Tok) : Except Err Fragment := do
  match peekKeyword ts 0 ["fallback", "receive"] with
  | none => .error .fallbackBadType
  | some _ => do
    let (ty, o1) ← popKeyword ts 0 ["fallback", "receive"]
    if ty = "receive" then do
      let (inputs, o2) ← consumeParams ts o1 false
      if inputs.length ≠ 0 then .error .receiveHasArguments else do
      let (_, o3) ← consumeKeywords ts o2 ["payable"]
      consumeEoi ts o3
      pure (.fallbackFrag [] true)
    else do
      let (inputs0, o2) ← consumeParams ts o1 false
      let inputs ←
        if inputs0.length ≠ 0 then
          if inputs0.length = 1 && (inputs0.map ParamType.type) = ["bytes"] then pure inputs0
          else .error .invalidFallbackInputs
        else do
          let bp ← ParamType.fromString "bytes" false
          pure [bp]
      let (mutability, o3) ← consumeMutability ts o2
      if mutability ≠ "nonpayable" && mutability ≠ "payable" then .error .fallbackConstant
      else do
        let (kws, o4) ← consumeKeywords ts o3 ["returns"]
        let o5 ←
          if kws.contains "returns" then do
            let (outputs, o5) ← consumeParams ts o4 false
            if outputs.length = 1 && (outputs.map ParamType.type) = ["bytes"] then pure o5
            else .error .invalidFallbackOutputs
          else pure o4
        consumeEoi ts o5
        pure (.fallbackFrag inputs (mutability = "payable"))

/-- `FunctionFragment.from` on a lexed stream. -/
def FunctionFragment.fromTokens (ts : List Tok) : Except Err Fragment := do
  let (name, o1) ← consumeName "function" ts 0
  let (inputs, o2) ← consumeParams ts o1 false
  let (mutability, o3) ← consumeMutability ts o2
  let (kws, o4) ← consumeKeywords ts o3 ["returns"]
  let (outputs, o5) ←
    if kws.contains "returns" then consumeParams ts o4 false
    else pure ([], o4)
  let (gas, o6) ← consumeGas ts o5
  consumeEoi ts o6
  let n ← checkFragmentName (some name)
  pure (.functionFrag n (some mutability) inputs outputs gas)

/-- `StructFragment.from` on a lexed stream. -/
def StructFragment.fromTokens (ts : List Tok) : Except Err Fragment := do
  let (name, o1) ← consumeName "struct" ts 0
  let (inputs, o2) ← consumeParams ts o1 false
  consumeEoi ts o2
  let n ← checkFragmentName (some name)
  pure (.structFrag n inputs)

/-- `Fragment.from` on a lexed stream: dispatch on the leading keyword; no
recognised keyword falls through to `unsupported frgament object`. -/
def Fragment.fromTokens (ts : List Tok) : Except Err Fragment :=
  match peekKeyword ts 0 kwTypes with
  | some "constructor" => ConstructorFragment.fromTokens ts
  | some "error" => ErrorFragment.fromTokens ts
  | some "event" => EventFragment.fromTokens ts
  | some "fallback" => FallbackFragment.fromTokens ts
  | some "receive" => FallbackFragment.fromTokens ts
  | some "function" => FunctionFragment.fromTokens ts
  | some "struct" => StructFragment.fromTokens ts
  | _ => .error .unsupportedFragment

/-- `Fragment.from` on a string.  The source first runs
`JSON.parse(obj)` and `Fragment.from` of its result inside a `try` block,
but the call's value is not returned and any failure is swallowed, so the
attempt has no effect on the result: control always continues to
`Fragment.from(lex(obj))`. -/
def Fragment.fromString (s : String) : Except Err Fragment := do
  let ts ← lex s
  Fragment.fromTokens ts

/-- The interchange description of one fragment (`JsonFragment`). -/
inductive JsonFragment where
  | mk (name : Option String) (type : Option String) (anonymous : Option Bool)
      (payable : Option Bool) (constant : Option Bool) (stateMutability : Option String)
      (inputs : Option (List JsonParamType)) (outputs : Option (List JsonParamType))
      (gas : Option Nat)

def JsonFragment.name : JsonFragment → Option String
  | .mk n _ _ _ _ _ _ _ _ => n

def JsonFragment.type : JsonFragment → Option String
  | .mk _ t _ _ _ _ _ _ _ => t

def JsonFragment.anonymous : JsonFragment → Option Bool
  | .mk _ _ a _ _ _ _ _ _ => a

def JsonFragment.payable : JsonFragment → Option Bool
  | .mk _ _ _ p _ _ _ _ _ => p

def JsonFragment.stateMutability : JsonFragment → Option String
  | .mk _ _ _ _ _ s _ _ _ => s

def JsonFragment.inputs : JsonFragment → Option (List JsonParamType)
  | .mk _ _ _ _ _ _ i _ _ => i

def JsonFragment.outputs : JsonFragment → Option (List JsonParamType)
  | .mk _ _ _ _ _ _ _ o _ => o

def JsonFragment.gas : JsonFragment → Option Nat
  | .mk _ _ _ _ _ _ _ _ g => g

/-- `ErrorFragment.from` on an interchange object. -/
def ErrorFragment.fromObject (obj : JsonFragment) : Except Err Fragment := do
  let inputs ← (obj.inputs.getD []).mapM (fun p => ParamType.fromObject p false)
  let n ← checkFragmentName obj.name
  pure (.errorFrag n inputs)

/-- `EventFragment.from` on an interchange object (`indexed` permitted). -/
def EventFragment.fromObject (obj : JsonFragment) : Except Err Fragment := do
  let inputs ← (obj.inputs.getD []).mapM (fun p => ParamType.fromObject p true)
  let n ← checkFragmentName obj.name
  pure (.eventFrag n inputs (obj.anonymous.getD false))

/-- `ConstructorFragment.from` on an interchange object. -/
def ConstructorFragment.fromObject (obj : JsonFragment) : Except Err Fragment := do
  let inputs ← (obj.inputs.getD []).mapM (fun p => ParamType.fromObject p false)
  pure (.constructorFrag inputs (obj.payable.getD false) obj.gas)

/-- `FallbackFragment.from` on an interchange object. -/
def FallbackFragment.fromObject (obj : JsonFragment) : Except Err Fragment :=
  if obj.type = some "receive" then pure (.fallbackFrag [] true)
  else if obj.type = some "fallback" then do
    let bp ← ParamType.fromString "bytes" false
    pure (.fallbackFrag [bp] (obj.stateMutability = some "payable"))
  else .error .invalidFallbackDescription

/-- `FunctionFragment.from` on an interchange object; `stateMutability` is
passed through as-is (the source has a `@TODO verifyState` comment). -/
def FunctionFragment.fromObject (obj : JsonFragment) : Except Err Fragment := do
  let inputs ← (obj.inputs.getD []).mapM (fun p => ParamType.fromObject p false)
  let outputs ← (obj.outputs.getD []).mapM (fun p => ParamType.fromObject p false)
  let n ← checkFragmentName obj.name
  pure (.functionFrag n obj.stateMutability inputs outputs obj.gas)

/-- `StructFragment.from` on an interchange object. -/
def StructFragment.fromObject (obj : JsonFragment) : Except Err Fragment := do
  let inputs ← (obj.inputs.getD []).mapM (fun p => ParamType.fromObject p false)
  let n ← checkFragmentName obj.name
  pure (.structFrag n inputs)

/-- `Fragment.from` on an interchange object: dispatch on `obj.type`. -/
def Fragment.fromObject (obj : JsonFragment) : Except Err Fragment :=
  match obj.type with
  | some "constructor" => ConstructorFragment.fromObject obj
  | some "error" => ErrorFragment.fromObject obj
  | some "event" => EventFragment.fromObject obj
  | some "fallback" => FallbackFragment.fromObject obj
  | some "receive" => FallbackFragment.fromObject obj
  | some "function" => FunctionFragment.fromObject obj
  | some "struct" => StructFragment.fromObject obj
  | _ => .error .unsupportedFragment

/-- `joinParams`. -/
def joinParams (fm : String) (params : List ParamType) : String :=
  "(" ++ String.intercalate (if fm = "full" then ", " else ",")
    (params.map (fun p => ParamType.format p fm)) ++ ")"

/-- The `format("json")` branch of each fragment class, as the
`JSON.stringify` string it produces (keys in insertion order, `undefined`
omitted).  A constructor or function with a bigint `gas` makes
`JSON.stringify` throw; `StructFragment.format` throws `@TODO`
unconditionally. -/
def Fragment.formatJson : Fragment → Except Err String
  | .errorFrag name inputs =>
    .ok ("\x7b\"type\":\"error\",\"name\":\"" ++ name ++ "\",\"inputs\":[" ++
      String.intercalate "," (inputs.map (fun i => ParamType.format i "json")) ++ "]\x7d")
  | .eventFrag name inputs anonymous =>
    .ok ("\x7b\"type\":\"event\",\"anonymous\":" ++ (if anonymous then "true" else "false") ++
      ",\"name\":\"" ++ name ++ "\",\"inputs\":[" ++
      String.intercalate "," (inputs.map (fun i => ParamType.format i "json")) ++ "]\x7d")
  | .constructorFrag inputs payable gas =>
    match gas with
    | some _ => .error .bigintUnserializable
    | none =>
      .ok ("\x7b\"type\":\"constructor\",\"stateMutability\":\"" ++
        (if payable then "payable" else "undefined") ++
        "\",\"payable\":" ++ (if payable then "true" else "false") ++
        ",\"inputs\":[" ++
        String.intercalate "," (inputs.map (fun i => ParamType.format i "json")) ++ "]\x7d")
  | .fallbackFrag inputs payable =>
    .ok ("\x7b\"type\":\"" ++ (if inputs.length = 0 then "receive" else "fallback") ++
      "\",\"stateMutability\":\"" ++ (if payable then "payable" else "nonpayable") ++ "\"\x7d")
  | .functionFrag name sm inputs outputs gas =>
    match gas with
    | some _ => .error .bigintUnserializable
    | none =>
      .ok ("\x7b\"type\":\"function\",\"name\":\"" ++ name ++
        "\",\"constant\":" ++ (if functionConstant sm then "true" else "false") ++
        (match sm with
          | some s => if s ≠ "nonpayable" then ",\"stateMutability\":\"" ++ s ++ "\"" else ""
          | none => "") ++
        ",\"payable\":" ++ (if functionPayable sm then "true" else "false") ++
        ",\"inputs\":[" ++
        String.intercalate "," (inputs.map (fun i => ParamType.format i "json")) ++
        "],\"outputs\":[" ++
        String.intercalate "," (outputs.map (fun o => ParamType.format o "json")) ++ "]\x7d")
  | .structFrag _ _ => .error .todoStructFormat

/-! ### Value walker -/

/-- A JS value as the walker sees it: an array, a plain object (own
enumerable string-keyed properties, looked up first-match; prototype-chain
lookups are not modelled), or anything else (a leaf). -/
inductive JsValue where
  | prim (n : Nat)
  | arr (xs : List JsValue)
  | obj (fields : List (String × JsValue))

mutual

/-- Fuel bound for the walkers: the depth of the type tree is below it. -/
def ParamType.psize : ParamType → Nat
  | .mk _ _ _ _ comps _ achild =>
    1 + (match comps with
          | some cs => ParamType.psizeList cs
          | none => 0) +
        (match achild with
          | some a => ParamType.psize a
          | none => 0)

def ParamType.psizeList : List ParamType → Nat
  | [] => 0
  | c :: cs => ParamType.psize c + ParamType.psizeList cs

end

/-- `ParamType.walk` (synchronous), with fuel.  An array node requires an
array value of matching length; a tuple node also requires an array value
(the synchronous walker has no object-value branch); a leaf applies
`process`. -/
def ParamType.walkF : Nat → ParamType → JsValue →
    (String → JsValue → JsValue) → Except Err JsValue
  | 0, _, _, _ => .error .noFuel
  | fuel + 1, pt, value, process =>
    if pt.baseType = "array" then
      match value with
      | .arr xs =>
        if pt.arrayLength ≠ some (-1) && some ((xs.length : Int)) ≠ pt.arrayLength then
          .error .arrayWrongLength
        else
          match pt.arrayChildren with
          | some a => do
            let ys ← xs.mapM (fun v => ParamType.walkF fuel a v process)
            pure (.arr ys)
          | none => .error .ctorBad
      | _ => .error .invalidArrayValue
    else if pt.baseType = "tuple" then
      match value with
      | .arr xs =>
        match pt.components with
        | some cs =>
          if xs.length ≠ cs.length then .error .arrayWrongLength
          else do
            let ys ← (cs.zip xs).mapM (fun p => ParamType.walkF fuel p.1 p.2 process)
            pure (.arr ys)
        | none => .error .ctorBad
      | _ => .error .invalidTupleValue
    else .ok (process pt.type value)

/-- `ParamType.walk`. -/
def ParamType.walk (pt : ParamType) (value : JsValue)
    (process : String → JsValue → JsValue) : Except Err JsValue :=
  ParamType.walkF pt.psize pt value process

/-- The object-to-array conversion in the tuple branch of `#walkAsync`:
`components.map` failing on an unnamed component or a missing key, else
picking each component's entry. -/
def extractTupleValues : List ParamType → List (String × JsValue) →
    Except Err (List JsValue)
  | [], _ => .ok []
  | p :: ps, fields =>
    if p.name = "" then .error .unnamedComponent
    else
      match fields.lookup p.name with
      | none => .error (.missingComponent p.name)
      | some v => do
        let vs ← extractTupleValues ps fields
        pure (v :: vs)

/-- `ParamType.#walkAsync` / `walkAsync`, with fuel.  The promise plumbing
(`promises`, `setValue`, the final joined await) only schedules the leaf
computations; the value computed is the one modelled here, with `process`
applied directly at each leaf.  A tuple value may also be an object keyed by
component names. -/
def ParamType.walkAsyncF : Nat → ParamType → JsValue →
    (String → JsValue → JsValue) → Except Err JsValue
  | 0, _, _, _ => .error .noFuel
  | fuel + 1, pt, value, process =>
    if pt.baseType = "array" then
      match value with
      | .arr xs =>
        if pt.arrayLength ≠ some (-1) && some ((xs.length : Int)) ≠ pt.arrayLength then
          .error .arrayWrongLength
        else
          match pt.arrayChildren with
          | some a => do
            let ys ← xs.mapM (fun v => ParamType.walkAsyncF fuel a v process)
            pure (.arr ys)
          | none => .error .ctorBad
      | _ => .error .invalidArrayValue
    else if pt.baseType = "tuple" then
      match pt.components with
      | some cs => do
        let result ←
          match value with
          | .arr xs => pure xs
          | .obj fields => extractTupleValues cs fields
          | .prim _ => .error .invalidTupleValue
        if result.length ≠ cs.length then .error .arrayWrongLength
        else do
          let ys ← (cs.zip result).mapM (fun p => ParamType.walkAsyncF fuel p.1 p.2 process)
          pure (.arr ys)
      | none => .error .ctorBad
    else .ok (process pt.type value)

/-- `ParamType.walkAsync`. -/
def ParamType.walkAsync (pt : ParamType) (value : JsValue)
    (process : String → JsValue → JsValue) : Except Err JsValue :=
  ParamType.walkAsyncF pt.psize pt value process

/-! ### Definitions following the specification's words (for comparison
with the source behaviour) -/

/-- Written from the specification: a string that matches the elementary
type grammar `address|bool|bytes[0-9]*|string|u?int[0-9]*` in full, i.e.
with nothing after the match.  The source's `regexType` is anchored only on
the left, so this differs from `(regexTypeMatch s.data).isSome` on strings
with trailing characters. -/
def elementaryTypeFull (s : String) : Bool :=
  match s.data with
  | l =>
    (l = ['a', 'd', 'd', 'r', 'e', 's', 's']) ||
    (l = ['b', 'o', 'o', 'l']) ||
    (l = ['s', 't', 'r', 'i', 'n', 'g']) ||
    (match stripLit ['b', 'y', 't', 'e', 's'] l with
      | some r => r.all isDigitChar
      | none => false) ||
    (match stripLit ['u', 'i', 'n', 't'] l with
      | some r => r.all isDigitChar
      | none =>
        match stripLit ['i', 'n', 't'] l with
        | some r => r.all isDigitChar
        | none => false)

mutual

/-- Name discipline over a whole `ParamType` tree: every node's name is
either empty or satisfies `p`. -/
def ParamType.namesOk (p : String → Bool) : ParamType → Bool
  | .mk n _ _ _ comps _ achild =>
    (n == "" || p n) &&
    (match comps with
      | some cs => ParamType.namesOkList p cs
      | none => true) &&
    (match achild with
      | some a => ParamType.namesOk p a
      | none => true)

def ParamType.namesOkList (p : String → Bool) : List ParamType → Bool
  | [] => true
  | c :: cs => ParamType.namesOk p c && ParamType.namesOkList p cs

end

/-- A fresh token of a given kind, as the lexer emits it for a word token
(no links, no value). -/
def mkTok (k : TokType) (txt : String) : Tok := ⟨k, txt, 0, 0, -1, -1, -1, -1⟩

/-! ## Theorems -/

/-- **C1.**  The claim states the round-trip law: for every constructed
fragment `f`, `Fragment.from(f.format("json"))` succeeds and equals `f`.
The code fails it: `Fragment.from(string)` computes the structured parse of
the JSON text inside a `try` block but discards its value (there is no
`return`), so control always reaches the lexer path, and the lexer rejects
the first character of any JSON object text.  Evaluated here on the smallest
fragment, `error Foo()`: its `format("json")` output is produced correctly,
the structured path would re-parse it to an equal fragment, but
`Fragment.from` of that text fails with the lexer's unexpected-token error.
(`StructFragment.format` moreover throws `@TODO` unconditionally, so the
sixth variant cannot even be serialized.) -/
theorem claim_C1_roundtrip_fails :
    Fragment.formatJson (.errorFrag "Foo" []) =
      .ok "\x7b\"type\":\"error\",\"name\":\"Foo\",\"inputs\":[]\x7d" ∧
    Fragment.fromString "\x7b\"type\":\"error\",\"name\":\"Foo\",\"inputs\":[]\x7d" =
      .error (.unexpected 0) ∧
    Fragment.fromObject (.mk (some "Foo") (some "error") none none none none
      (some []) none none) = .ok (.errorFrag "Foo" []) ∧
    Fragment.formatJson (.structFrag "S" []) = .error .todoStructFormat :=
  ⟨rfl, rfl, rfl, rfl⟩

/-- **C2.**  The claim states that `Fragment.from(string)` first attempts
the interchange-object interpretation, and that for every string that is a
valid interchange-object JSON of a supported kind the fragment produced by
the structured parse is what `Fragment.from` returns.  The code does attempt
`Fragment.from(JSON.parse(obj))` first, but drops that call's value and
unconditionally continues to `Fragment.from(lex(obj))`, so for a valid
interchange JSON text the result is a lexer error, not the structured
fragment: here the canonical error-fragment JSON parses structurally to
`error Foo()` yet `Fragment.from` of the same text fails at offset 0. -/
theorem claim_C2_json_result_discarded :
    Fragment.fromObject (.mk (some "Foo") (some "error") none none none none
      (some []) none none) = .ok (.errorFrag "Foo" []) ∧
    Fragment.fromString "\x7b\"type\":\"error\",\"name\":\"Foo\",\"inputs\":[]\x7d" =
      .error (.unexpected 0) ∧
    Fragment.fromString "\x7b\"type\":\"function\",\"name\":\"f\",\"inputs\":[]\x7d" =
      .error (.unexpected 0) :=
  ⟨rfl, rfl, rfl⟩

/-- **C3.**  The claim states that `consumeMutability` fails with a
conflicting-modifiers error when more than one keyword of
`{constant, payable, nonpayable}` or of `{pure, view, payable, nonpayable}`
appears, and in particular on `view pure`.  The code cannot detect any
conflict: `allowSingle` iterates `for (const key in allowed.keys())`, a
`for..in` loop over a Set iterator object, which visits no keys, so
`included` is always empty; `consumeMutability` over `view pure` therefore
consumes both keywords and resolves to `view` instead of throwing. -/
theorem claim_C3_conflict_not_detected :
    (lex "view pure").bind (fun ts => consumeMutability ts 0) = .ok ("view", 2) ∧
    allowSingle ["view", "pure"] ["pure", "view", "payable", "nonpayable"] = .ok () :=
  ⟨rfl, rfl⟩

/-- **C6.**  `ParamType.from("uint8[3][]")` yields an outer dynamic array
(`baseType "array"`, `arrayLength -1`) whose `arrayChildren` is a
fixed-length-3 array of `uint8`: each trailing array suffix wraps the type
built so far, giving the right-to-left array-suffix semantics. -/
theorem claim_C6_array_nesting :
    ParamType.fromString "uint8[3][]" false =
      .ok (.mk "" "uint8[3][]" "array" none none (some (-1))
        (some (.mk "" "uint8[3]" "array" none none (some 3)
          (some (.mk "" "uint8" "uint8" none none none none))))) := rfl

/-- **C8.**  `ParamType.from("address indexed a", allowIndexed=false)` fails
with the not-indexable error, and the same call with `allowIndexed=true`
succeeds with `indexed == true` and name `"a"`. -/
theorem claim_C8_indexed_gating :
    ParamType.fromString "address indexed a" false = .error .notIndexable ∧
    ParamType.fromString "address indexed a" true =
      .ok (.mk "a" "address" "address" (some true) none none none) :=
  ⟨rfl, rfl⟩

/-- **C5, counterexample.**  The claim says that any string not matching the
elementary-type grammar fails `verifyBasicType` with an invalid-type error.
`"uint8x"` does not match the grammar (matched in full), yet
`verifyBasicType` accepts it and returns it unchanged, because `regexType`
is anchored only on the left: the prefix `uint8` matches and the trailing
`x` is ignored. -/
theorem claim_C5_counterexample :
    verifyBasicType "uint8x" = .ok "uint8x" ∧ elementaryTypeFull "uint8x" = false :=
  ⟨rfl, by decide⟩

/-- **C4, counterexample.**  The claim says that for both `walk` and
`walkAsync` a tuple accepts a keyed mapping providing an entry for every
named component.  The synchronous `walk` has no object branch: on a
one-component tuple with the mapping `{a: 1}` - every component named,
every key present - `walk` fails with the invalid-tuple error, while
`walkAsync` accepts the same value. -/
theorem claim_C4_counterexample :
    ParamType.walk
      (.mk "" "tuple(uint256)" "tuple" none
        (some [.mk "a" "uint256" "uint256" none none none none]) none none)
      (.obj [("a", .prim 1)]) (fun _ v => v) = .error .invalidTupleValue ∧
    ParamType.walkAsync
      (.mk "" "tuple(uint256)" "tuple" none
        (some [.mk "a" "uint256" "uint256" none none none none]) none none)
      (.obj [("a", .prim 1)]) (fun _ v => v) = .ok (.arr [.prim 1]) :=
  ⟨rfl, rfl⟩

/-- **C10.**  In the text path, `ParamType.from` accepts the non-`indexed`
modifier keywords (`calldata`, `memory`, `storage`, `payable`) in parameter
position and silently discards them: for any elementary-type token `t` and
identifier token `x`, parsing `t m x` gives the same result as parsing
`t x` (identically on failures too), and on concrete full strings
`ParamType.from("uint256 m x")` equals `ParamType.from("uint256 x")` for
each of the four keywords; of the modifier keywords only `indexed` affects
the result. -/
theorem claim_C10_modifiers_discarded (t x m : String) (ai : Bool)
    (hm : m = "calldata" ∨ m = "memory" ∨ m = "storage" ∨ m = "payable") :
    ParamType.fromTokens [mkTok .TYPE t, mkTok .KEYWORD m, mkTok .ID x] ai =
      ParamType.fromTokens [mkTok .TYPE t, mkTok .ID x] ai ∧
    ParamType.fromString "uint256 x" false =
      .ok (.mk "x" "uint256" "uint256" none none none none) ∧
    ParamType.fromString "uint256 memory x" false =
      .ok (.mk "x" "uint256" "uint256" none none none none) ∧
    ParamType.fromString "uint256 calldata x" false =
      .ok (.mk "x" "uint256" "uint256" none none none none) ∧
    ParamType.fromString "uint256 storage x" false =
      .ok (.mk "x" "uint256" "uint256" none none none none) ∧
    ParamType.fromString "uint256 payable x" false =
      .ok (.mk "x" "uint256" "uint256" none none none none) := by
  refine ⟨?_, rfl, rfl, rfl, rfl, rfl⟩
  rcases hm with h | h | h | h <;> subst h <;>
    (simp only [ParamType.fromTokens, List.length_cons, List.length_nil]
     simp only [ParamType.fromTokensF, consumeKeywords, consumeKeywordsGo, peekType, peekTok,
       popType, arrayLoop, mkTok, List.length_cons, List.length_nil, consumeGas,
       Bind.bind, Except.bind, Pure.pure, Except.pure, List.getElem?_cons_zero,
       List.getElem?_cons_succ, List.getElem?_nil, List.get?_eq_getElem?]
     simp only [reduceCtorEq, reduceIte, List.contains_cons, List.elem_cons, List.elem_nil]
     cases hv : verifyBasicType t <;> simp [hv, kwModifiers, mkParamType])

/-- **C10, witness.**  The modifier-discarding theorem applied at the
concrete tokens `uint256 memory x`. -/
theorem claim_C10_modifiers_discarded_witness :
    ParamType.fromTokens [mkTok .TYPE "uint256", mkTok .KEYWORD "memory", mkTok .ID "x"] false =
      ParamType.fromTokens [mkTok .TYPE "uint256", mkTok .ID "x"] false ∧
    ParamType.fromString "uint256 x" false =
      .ok (.mk "x" "uint256" "uint256" none none none none) ∧
    ParamType.fromString "uint256 memory x" false =
      .ok (.mk "x" "uint256" "uint256" none none none none) ∧
    ParamType.fromString "uint256 calldata x" false =
      .ok (.mk "x" "uint256" "uint256" none none none none) ∧
    ParamType.fromString "uint256 storage x" false =
      .ok (.mk "x" "uint256" "uint256" none none none none) ∧
    ParamType.fromString "uint256 payable x" false =
      .ok (.mk "x" "uint256" "uint256" none none none none) :=
  claim_C10_modifiers_discarded "uint256" "x" "memory" false (Or.inr (Or.inl rfl))

/-- `takeWhile` over an append whose left part satisfies the predicate
throughout and whose right part starts (if at all) with a failing
character. -/
theorem takeWhile_append_of_all (p : Char → Bool) (a b : List Char)
    (ha : ∀ c ∈ a, p c) (hb : ∀ c, b.head? = some c → p c = false) :
    (a ++ b).takeWhile p = a := by
  induction a with
  | nil =>
    cases b with
    | nil => rfl
    | cons x xs => simp [List.takeWhile_cons, hb x rfl]
  | cons x xs ih =>
    simp only [List.cons_append, List.takeWhile_cons, ha x (List.mem_cons_self x xs)]
    simp [ih (fun c hc => ha c (List.mem_cons_of_mem _ hc))]

/-- **C5, amended.**  `verifyBasicType` canonicalizes exactly `"uint"` to
`"uint256"` and exactly `"int"` to `"int256"`; a string with no leading
elementary-type match fails with an invalid-type error naming it; and for
any nonempty digit string `d` (with any trailing remainder that does not
begin with a digit - the regex is only anchored on the left, so the
remainder is ignored), `bytes`+`d` is accepted unchanged exactly when
`1 ≤ d ≤ 32`, and `uint`+`d` / `int`+`d` are accepted unchanged exactly when
`d % 8 == 0 ∧ 0 < d ≤ 256`, with the width errors otherwise. -/
theorem claim_C5_amended :
    (verifyBasicType "uint" = .ok "uint256") ∧
    (verifyBasicType "int" = .ok "int256") ∧
    (∀ s : String, regexTypeMatch s.data = none →
      verifyBasicType s = .error (.invalidType s)) ∧
    (∀ d junk : List Char, d ≠ [] → (∀ c ∈ d, isDigitChar c) →
      (∀ c, junk.head? = some c → isDigitChar c = false) →
      verifyBasicType (String.mk ('b' :: 'y' :: 't' :: 'e' :: 's' :: (d ++ junk))) =
        (if digitsVal d ≠ 0 ∧ digitsVal d ≤ 32 then
          .ok (String.mk ('b' :: 'y' :: 't' :: 'e' :: 's' :: (d ++ junk)))
         else .error (.invalidBytesLength
            (String.mk ('b' :: 'y' :: 't' :: 'e' :: 's' :: (d ++ junk)))))) ∧
    (∀ d junk : List Char, d ≠ [] → (∀ c ∈ d, isDigitChar c) →
      (∀ c, junk.head? = some c → isDigitChar c = false) →
      verifyBasicType (String.mk ('u' :: 'i' :: 'n' :: 't' :: (d ++ junk))) =
        (if digitsVal d ≠ 0 ∧ digitsVal d ≤ 256 ∧ digitsVal d % 8 = 0 then
          .ok (String.mk ('u' :: 'i' :: 'n' :: 't' :: (d ++ junk)))
         else .error (.invalidNumericWidth
            (String.mk ('u' :: 'i' :: 'n' :: 't' :: (d ++ junk)))))) ∧
    (∀ d junk : List Char, d ≠ [] → (∀ c ∈ d, isDigitChar c) →
      (∀ c, junk.head? = some c → isDigitChar c = false) →
      verifyBasicType (String.mk ('i' :: 'n' :: 't' :: (d ++ junk))) =
        (if digitsVal d ≠ 0 ∧ digitsVal d ≤ 256 ∧ digitsVal d % 8 = 0 then
          .ok (String.mk ('i' :: 'n' :: 't' :: (d ++ junk)))
         else .error (.invalidNumericWidth
            (String.mk ('i' :: 'n' :: 't' :: (d ++ junk)))))) := by
  refine ⟨rfl, rfl, ?_, ?_, ?_, ?_⟩
  · intro s h
    simp [verifyBasicType, h]
  · intro d junk hd hall hjunk
    have hg : regexTypeMatch ('b' :: 'y' :: 't' :: 'e' :: 's' :: (d ++ junk)) = some (d, []) := by
      simp [regexTypeMatch, stripLit, takeWhile_append_of_all _ d junk hall hjunk]
    simp only [verifyBasicType, hg]
    simp only [String.ext_iff, show ("uint" : String).data = ['u', 'i', 'n', 't'] from rfl,
      show ("int" : String).data = ['i', 'n', 't'] from rfl]
    simp only [List.cons.injEq, List.append_eq_nil]
    simp [hd, Bool.and_eq_true, decide_eq_true_eq, and_assoc]
  · intro d junk hd hall hjunk
    have hg : regexTypeMatch ('u' :: 'i' :: 'n' :: 't' :: (d ++ junk)) = some ([], d) := by
      simp [regexTypeMatch, stripLit, takeWhile_append_of_all _ d junk hall hjunk]
    simp only [verifyBasicType, hg]
    simp only [String.ext_iff, show ("uint" : String).data = ['u', 'i', 'n', 't'] from rfl,
      show ("int" : String).data = ['i', 'n', 't'] from rfl]
    simp only [List.cons.injEq, List.append_eq_nil]
    simp [hd, Bool.and_eq_true, decide_eq_true_eq, and_assoc]
  · intro d junk hd hall hjunk
    have hg : regexTypeMatch ('i' :: 'n' :: 't' :: (d ++ junk)) = some ([], d) := by
      simp [regexTypeMatch, stripLit, takeWhile_append_of_all _ d junk hall hjunk]
    simp only [verifyBasicType, hg]
    simp only [String.ext_iff, show ("uint" : String).data = ['u', 'i', 'n', 't'] from rfl,
      show ("int" : String).data = ['i', 'n', 't'] from rfl]
    simp only [List.cons.injEq, List.append_eq_nil]
    simp [hd, Bool.and_eq_true, decide_eq_true_eq, and_assoc]

/-- **C5, witness.**  The amended width rules applied at `d = "8"` with
trailing junk `"x"` (accepted: `uint8x` returned unchanged) - the inputs of
the counterexample - discharging the digit-string hypotheses concretely. -/
theorem claim_C5_amended_witness :
    verifyBasicType (String.mk ('u' :: 'i' :: 'n' :: 't' :: (['8'] ++ ['x']))) =
      (if digitsVal ['8'] ≠ 0 ∧ digitsVal ['8'] ≤ 256 ∧ digitsVal ['8'] % 8 = 0 then
        .ok (String.mk ('u' :: 'i' :: 'n' :: 't' :: (['8'] ++ ['x'])))
       else .error (.invalidNumericWidth
          (String.mk ('u' :: 'i' :: 'n' :: 't' :: (['8'] ++ ['x']))))) :=
  claim_C5_amended.2.2.2.2.1 ['8'] ['x'] (by decide) (by decide) (by decide)

/-- Every `ParamType` has positive walker fuel. -/
theorem psize_pos (pt : ParamType) : 0 < pt.psize := by
  cases pt with
  | mk n t b i c al ac =>
    rw [ParamType.psize.eq_def]
    cases c <;> cases ac <;> simp

/-- **C4, amended.**  For `walkAsync`, a tuple-typed node accepts either an
ordered sequence (whose length must equal `components.length`, else the
wrong-length error) or a keyed mapping: the mapping is converted by
extracting each component's entry - failing exactly when some component is
unnamed or its key is absent - and then the walk proceeds exactly as for the
extracted ordered sequence.  The synchronous `walk` accepts only the
ordered-sequence form: any keyed-mapping value fails with the invalid-tuple
error. -/
theorem claim_C4_amended :
    (∀ (pt : ParamType) (fields : List (String × JsValue)) (f : String → JsValue → JsValue),
      pt.baseType = "tuple" →
      ParamType.walk pt (.obj fields) f = .error .invalidTupleValue) ∧
    (∀ (pt : ParamType) (cs : List ParamType) (xs : List JsValue)
        (f : String → JsValue → JsValue),
      pt.baseType = "tuple" → pt.components = some cs → xs.length ≠ cs.length →
      ParamType.walkAsync pt (.arr xs) f = .error .arrayWrongLength) ∧
    (∀ (pt : ParamType) (cs : List ParamType) (fields : List (String × JsValue))
        (vs : List JsValue) (f : String → JsValue → JsValue),
      pt.baseType = "tuple" → pt.components = some cs →
      extractTupleValues cs fields = .ok vs →
      ParamType.walkAsync pt (.obj fields) f = ParamType.walkAsync pt (.arr vs) f) ∧
    (∀ (pt : ParamType) (cs : List ParamType) (fields : List (String × JsValue))
        (e : Err) (f : String → JsValue → JsValue),
      pt.baseType = "tuple" → pt.components = some cs →
      extractTupleValues cs fields = .error e →
      ParamType.walkAsync pt (.obj fields) f = .error e) ∧
    (∀ (cs : List ParamType) (fields : List (String × JsValue)),
      (extractTupleValues cs fields).isOk = true ↔
        ∀ p ∈ cs, p.name ≠ "" ∧ (fields.lookup p.name).isSome) := by
  refine ⟨?_, ?_, ?_, ?_, ?_⟩
  · intro pt fields f hb
    obtain ⟨m, hm⟩ : ∃ m, pt.psize = m + 1 := ⟨pt.psize - 1, by have := psize_pos pt; omega⟩
    simp [ParamType.walk, hm, ParamType.walkF, hb]
  · intro pt cs xs f hb hc hlen
    obtain ⟨m, hm⟩ : ∃ m, pt.psize = m + 1 := ⟨pt.psize - 1, by have := psize_pos pt; omega⟩
    simp [ParamType.walkAsync, hm, ParamType.walkAsyncF, hb, hc, hlen, Bind.bind, Except.bind,
      Pure.pure, Except.pure]
  · intro pt cs fields vs f hb hc he
    obtain ⟨m, hm⟩ : ∃ m, pt.psize = m + 1 := ⟨pt.psize - 1, by have := psize_pos pt; omega⟩
    simp [ParamType.walkAsync, hm, ParamType.walkAsyncF, hb, hc, he, Bind.bind, Except.bind,
      Pure.pure, Except.pure]
  · intro pt cs fields e f hb hc he
    obtain ⟨m, hm⟩ : ∃ m, pt.psize = m + 1 := ⟨pt.psize - 1, by have := psize_pos pt; omega⟩
    simp [ParamType.walkAsync, hm, ParamType.walkAsyncF, hb, hc, he, Bind.bind, Except.bind,
      Pure.pure, Except.pure]
  · intro cs fields
    induction cs with
    | nil => simp [extractTupleValues, Except.isOk, Except.toBool]
    | cons c cs ih =>
      by_cases hn : c.name = ""
      · simp only [extractTupleValues, hn, reduceIte]
        simp only [Except.isOk, Except.toBool, Bool.false_eq_true, false_iff]
        intro h
        exact (h c (List.mem_cons_self c cs)).1 hn
      · cases hl : fields.lookup c.name with
        | none =>
          have hfalse : extractTupleValues (c :: cs) fields =
              .error (.missingComponent c.name) := by
            simp [extractTupleValues, hn, hl]
          rw [hfalse]
          simp only [Except.isOk, Except.toBool, Bool.false_eq_true, false_iff]
          intro h
          have h2 := (h c (List.mem_cons_self c cs)).2
          rw [hl] at h2
          simp at h2
        | some v =>
          cases hrest : extractTupleValues cs fields with
          | error e =>
            have hfalse : extractTupleValues (c :: cs) fields = .error e := by
              simp [extractTupleValues, hn, hl, hrest, Bind.bind, Except.bind]
            rw [hfalse]
            simp only [Except.isOk, Except.toBool, Bool.false_eq_true, false_iff]
            intro h
            have h2 : (extractTupleValues cs fields).isOk = true :=
              ih.mpr (fun p hp => h p (List.mem_cons_of_mem _ hp))
            rw [hrest] at h2
            simp [Except.isOk, Except.toBool] at h2
          | ok vs =>
            have hok : extractTupleValues (c :: cs) fields = .ok (v :: vs) := by
              simp [extractTupleValues, hn, hl, hrest, Bind.bind, Except.bind,
                Pure.pure, Except.pure]
            rw [hok]
            simp only [Except.isOk, Except.toBool, true_iff]
            intro p hp
            rcases List.mem_cons.mp hp with h | h
            · subst h
              exact ⟨hn, by simp [hl]⟩
            · exact (ih.mp (by rw [hrest]; rfl)) p h

/-- **C4, amended, witness.**  The sync-rejects-mapping part applied to a
concrete one-component tuple and the mapping `{b: 2}`. -/
theorem claim_C4_amended_witness :
    ParamType.walk
      (.mk "" "tuple(uint256)" "tuple" none
        (some [.mk "b" "uint256" "uint256" none none none none]) none none)
      (.obj [("b", .prim 2)]) (fun _ v => v) = .error .invalidTupleValue :=
  claim_C4_amended.1
    (.mk "" "tuple(uint256)" "tuple" none
      (some [.mk "b" "uint256" "uint256" none none none none]) none none)
    [("b", .prim 2)] (fun _ v => v) rfl

theorem takeWhile_append_stop (p : Char → Bool) (a b : List Char)
    (hb : ∀ c, b.head? = some c → p c = false) :
    (a ++ b).takeWhile p = a.takeWhile p := by
  induction a with
  | nil =>
    cases b with
    | nil => rfl
    | cons x xs => simp [List.takeWhile_cons, hb x rfl]
  | cons x xs ih =>
    by_cases hx : p x <;> simp [List.takeWhile_cons, hx, ih]

theorem dropWhile_append_keep (p : Char → Bool) (a b : List Char)
    (hb : ∀ c, b.head? = some c → p c = false) :
    (a ++ b).dropWhile p = a.dropWhile p ++ b := by
  induction a with
  | nil =>
    cases b with
    | nil => rfl
    | cons x xs => simp [List.dropWhile_cons, hb x rfl]
  | cons x xs ih =>
    by_cases hx : p x <;> simp [List.dropWhile_cons, hx, ih]

theorem lexStep_append (st : LexState) (off1 : Nat) (c : Char) (cs w : List Char)
    (st2 : LexState) (off2 : Nat) (rest : List Char)
    (hid : ∀ c0, w.head? = some c0 → isIdCont c0 = false)
    (hdg : ∀ c0, w.head? = some c0 → isDigitChar c0 = false)
    (h : lexStep st off1 c cs = .ok (st2, off2, rest)) :
    lexStep st off1 c (cs ++ w) = .ok (st2, off2, rest ++ w) := by
  have hTake : (cs ++ w).takeWhile isIdCont = cs.takeWhile isIdCont :=
    takeWhile_append_stop _ _ _ hid
  have hDrop : (cs ++ w).dropWhile isIdCont = cs.dropWhile isIdCont ++ w :=
    dropWhile_append_keep _ _ _ hid
  have hTakeD : (cs ++ w).takeWhile isDigitChar = cs.takeWhile isDigitChar :=
    takeWhile_append_stop _ _ _ hdg
  have hDropD : (cs ++ w).dropWhile isDigitChar = cs.dropWhile isDigitChar ++ w :=
    dropWhile_append_keep _ _ _ hdg
  simp only [lexStep] at h ⊢
  rw [hTake, hDrop, hTakeD, hDropD]
  by_cases h1 : c = '('
  · simp only [if_pos h1] at h ⊢
    simp only [Except.ok.injEq, Prod.mk.injEq] at h ⊢
    exact ⟨h.1, h.2.1, by rw [h.2.2]⟩
  by_cases h2 : c = ')'
  · simp only [if_neg h1, if_pos h2] at h ⊢
    split at h
    · simp only [Except.ok.injEq, Prod.mk.injEq] at h ⊢
      exact ⟨h.1, h.2.1, by rw [h.2.2]⟩
    · simp at h
    · simp at h
  by_cases h3 : c = ','
  · simp only [if_neg h1, if_neg h2, if_pos h3] at h ⊢
    split at h
    · simp only [Except.ok.injEq, Prod.mk.injEq] at h ⊢
      exact ⟨h.1, h.2.1, by rw [h.2.2]⟩
    · simp at h
  by_cases h4 : c = '['
  · simp only [if_neg h1, if_neg h2, if_neg h3, if_pos h4] at h ⊢
    simp only [Except.ok.injEq, Prod.mk.injEq] at h ⊢
    exact ⟨h.1, h.2.1, by rw [h.2.2]⟩
  by_cases h5 : c = ']'
  · simp only [if_neg h1, if_neg h2, if_neg h3, if_neg h4, if_pos h5] at h ⊢
    split at h
    · rename_i x0 t1 heq1
      split at h
      · rename_i hbt
        rw [if_pos hbt]
        simp only [Except.ok.injEq, Prod.mk.injEq] at h ⊢
        exact ⟨h.1, h.2.1, by rw [h.2.2]⟩
      · simp at h
    · simp at h
  by_cases h6 : c = '@'
  · simp only [if_neg h1, if_neg h2, if_neg h3, if_neg h4, if_neg h5, if_pos h6] at h ⊢
    simp only [Except.ok.injEq, Prod.mk.injEq] at h ⊢
    exact ⟨h.1, h.2.1, by rw [h.2.2]⟩
  by_cases h7 : isIdStart c = true
  · simp only [if_neg h1, if_neg h2, if_neg h3, if_neg h4, if_neg h5, if_neg h6,
      if_pos h7] at h ⊢
    simp only [Except.ok.injEq, Prod.mk.injEq] at h ⊢
    exact ⟨h.1, h.2.1, by rw [h.2.2]⟩
  by_cases h8 : isDigitChar c = true
  · simp only [if_neg h1, if_neg h2, if_neg h3, if_neg h4, if_neg h5, if_neg h6,
      if_neg h7, if_pos h8] at h ⊢
    simp only [Except.ok.injEq, Prod.mk.injEq] at h ⊢
    exact ⟨h.1, h.2.1, by rw [h.2.2]⟩
  · simp only [if_neg h1, if_neg h2, if_neg h3, if_neg h4, if_neg h5, if_neg h6,
      if_neg h7, if_neg h8] at h
    simp at h

theorem dropWhile_eq_nil_of_all (p : Char → Bool) (l : List Char) (h : ∀ c ∈ l, p c) :
    l.dropWhile p = [] := by
  induction l with
  | nil => rfl
  | cons x xs ih =>
    rw [List.dropWhile_cons_of_pos (h x (List.mem_cons_self x xs))]
    exact ih (fun c hc => h c (List.mem_cons_of_mem _ hc))

theorem dropWhile_append_cons (p : Char → Bool) (a b : List Char) (c : Char) (cs : List Char)
    (h : a.dropWhile p = c :: cs) : (a ++ b).dropWhile p = c :: (cs ++ b) := by
  rw [List.dropWhile_append, h]
  simp

theorem takeWhile_append_of_dropWhile_cons (p : Char → Bool) (a b : List Char)
    (c : Char) (cs : List Char) (h : a.dropWhile p = c :: cs) :
    (a ++ b).takeWhile p = a.takeWhile p := by
  induction a with
  | nil => simp at h
  | cons x xs ih =>
    by_cases hx : p x
    · rw [List.dropWhile_cons_of_pos hx] at h
      simp [List.takeWhile_cons, hx, ih h]
    · simp [List.takeWhile_cons, hx]

theorem ws_not_idCont (c : Char) (h : isWsChar c) : isIdCont c = false := by
  simp only [isWsChar, Bool.or_eq_true, decide_eq_true_eq] at h
  rcases h with ((((h | h) | h) | h) | h) | h <;> subst h <;> decide

theorem ws_not_digit (c : Char) (h : isWsChar c) : isDigitChar c = false := by
  simp only [isWsChar, Bool.or_eq_true, decide_eq_true_eq] at h
  rcases h with ((((h | h) | h) | h) | h) | h <;> subst h <;> decide

theorem lexStep_length (st : LexState) (off1 : Nat) (c : Char) (cs : List Char)
    (st2 : LexState) (off2 : Nat) (rest : List Char)
    (h : lexStep st off1 c cs = .ok (st2, off2, rest)) : rest.length ≤ cs.length := by
  have hsub : (cs.dropWhile isIdCont).length ≤ cs.length :=
    List.Sublist.length_le (List.dropWhile_sublist _)
  have hsub2 : (cs.dropWhile isDigitChar).length ≤ cs.length :=
    List.Sublist.length_le (List.dropWhile_sublist _)
  simp only [lexStep] at h
  by_cases h1 : c = '('
  · simp only [if_pos h1] at h
    simp only [Except.ok.injEq, Prod.mk.injEq] at h
    rw [← h.2.2]
  by_cases h2 : c = ')'
  · simp only [if_neg h1, if_pos h2] at h
    split at h
    · simp only [Except.ok.injEq, Prod.mk.injEq] at h
      rw [← h.2.2]
    · simp at h
    · simp at h
  by_cases h3 : c = ','
  · simp only [if_neg h1, if_neg h2, if_pos h3] at h
    split at h
    · simp only [Except.ok.injEq, Prod.mk.injEq] at h
      rw [← h.2.2]
    · simp at h
  by_cases h4 : c = '['
  · simp only [if_neg h1, if_neg h2, if_neg h3, if_pos h4] at h
    simp only [Except.ok.injEq, Prod.mk.injEq] at h
    rw [← h.2.2]
  by_cases h5 : c = ']'
  · simp only [if_neg h1, if_neg h2, if_neg h3, if_neg h4, if_pos h5] at h
    split at h
    · split at h
      · simp only [Except.ok.injEq, Prod.mk.injEq] at h
        rw [← h.2.2]
      · simp at h
    · simp at h
  by_cases h6 : c = '@'
  · simp only [if_neg h1, if_neg h2, if_neg h3, if_neg h4, if_neg h5, if_pos h6] at h
    simp only [Except.ok.injEq, Prod.mk.injEq] at h
    rw [← h.2.2]
  by_cases h7 : isIdStart c = true
  · simp only [if_neg h1, if_neg h2, if_neg h3, if_neg h4, if_neg h5, if_neg h6,
      if_pos h7] at h
    simp only [Except.ok.injEq, Prod.mk.injEq] at h
    rw [← h.2.2]
    exact hsub
  by_cases h8 : isDigitChar c = true
  · simp only [if_neg h1, if_neg h2, if_neg h3, if_neg h4, if_neg h5, if_neg h6,
      if_neg h7, if_pos h8] at h
    simp only [Except.ok.injEq, Prod.mk.injEq] at h
    rw [← h.2.2]
    exact hsub2
  · simp only [if_neg h1, if_neg h2, if_neg h3, if_neg h4, if_neg h5, if_neg h6,
      if_neg h7, if_neg h8] at h
    simp at h

theorem lexLoop_append_ws (w : List Char) (hw : w ≠ []) (hws : ∀ c ∈ w, isWsChar c) :
    ∀ (fuel1 : Nat) (r : List Char) (st : LexState) (off : Nat) (out : List Tok) (fuel2 : Nat),
      lexLoop fuel1 st off r = .ok out → r.length + 1 ≤ fuel2 →
      ∃ n, lexLoop fuel2 st off (r ++ w) = .error (.unexpected n) := by
  intro fuel1
  induction fuel1 with
  | zero => intro r st off out fuel2 h _; simp [lexLoop] at h
  | succ f ih =>
    intro r st off out fuel2 h hf2
    obtain ⟨f2, rfl⟩ : ∃ f2, fuel2 = f2 + 1 := ⟨fuel2 - 1, by omega⟩
    cases r with
    | nil =>
      cases hww : w with
      | nil => exact absurd hww hw
      | cons wc wcs =>
        refine ⟨off + ((wc :: wcs).takeWhile isWsChar).length, ?_⟩
        have hdw : w.dropWhile isWsChar = [] := dropWhile_eq_nil_of_all _ _ hws
        rw [hww] at hdw
        simp only [List.nil_append, hww, lexLoop, hdw]
    | cons rh rt =>
      simp only [lexLoop] at h
      cases hdw : (rh :: rt).dropWhile isWsChar with
      | nil => rw [hdw] at h; simp at h
      | cons c cs =>
        rw [hdw] at h
        dsimp only at h
        have hlencs : cs.length ≤ rt.length := by
          have h2 : ((rh :: rt).dropWhile isWsChar).length ≤ (rh :: rt).length :=
            List.Sublist.length_le (List.dropWhile_sublist _)
          rw [hdw] at h2
          simp only [List.length_cons] at h2
          omega
        have hwhead : ∀ c0, w.head? = some c0 → isIdCont c0 = false := by
          intro c0 hc0
          cases w with
          | nil => simp at hc0
          | cons w0 ws =>
            simp only [List.head?_cons, Option.some.injEq] at hc0
            subst hc0
            exact ws_not_idCont _ (hws _ (List.mem_cons_self _ _))
        have hwdig : ∀ c0, w.head? = some c0 → isDigitChar c0 = false := by
          intro c0 hc0
          cases w with
          | nil => simp at hc0
          | cons w0 ws =>
            simp only [List.head?_cons, Option.some.injEq] at hc0
            subst hc0
            exact ws_not_digit _ (hws _ (List.mem_cons_self _ _))
        have hgw : (rh :: (rt ++ w)).dropWhile isWsChar = c :: (cs ++ w) := by
          have h3 := dropWhile_append_cons isWsChar (rh :: rt) w c cs hdw
          simpa using h3
        have htw : (rh :: (rt ++ w)).takeWhile isWsChar = (rh :: rt).takeWhile isWsChar := by
          have h3 := takeWhile_append_of_dropWhile_cons isWsChar (rh :: rt) w c cs hdw
          simpa using h3
        simp only [List.cons_append, lexLoop, hgw, htw]
        cases hstep : lexStep st (off + ((rh :: rt).takeWhile isWsChar).length) c cs with
        | error e =>
          rw [hstep] at h
          simp at h
        | ok trip =>
          obtain ⟨st2, off2, rest⟩ := trip
          rw [hstep] at h
          simp only at h
          rw [lexStep_append _ _ _ _ _ _ _ _ hwhead hwdig hstep]
          have hrl : rest.length ≤ cs.length :=
            lexStep_length _ _ _ _ _ _ _ hstep
          exact ih rest st2 off2 out f2 h
            (by simp only [List.length_cons] at hf2; omega)

/-- **C9.**  For every input that lexes successfully, appending one or more
whitespace characters makes the tokenizer throw the unexpected-token error
instead of ignoring the trailing whitespace (the loop is entered on the
remaining whitespace, strips it, and then finds no character to form a
token from), so `ParamType.from` and `Fragment.from` fail on such strings
even though the string without the trailing whitespace parses. -/
theorem claim_C9_trailing_whitespace (s : String) (w : List Char) (out : List Tok) (ai : Bool)
    (h : lex s = .ok out) (hw : w ≠ []) (hws : ∀ c ∈ w, isWsChar c) :
    (∃ n, lex (String.mk (s.data ++ w)) = .error (.unexpected n)) ∧
    (∃ n, ParamType.fromString (String.mk (s.data ++ w)) ai = .error (.unexpected n)) ∧
    (∃ n, Fragment.fromString (String.mk (s.data ++ w)) = .error (.unexpected n)) := by
  simp only [lex] at h
  have hmain : ∃ n, lexLoop ((s.data ++ w).length + 1) ⟨[], [], []⟩ 0 (s.data ++ w) =
      .error (.unexpected n) := by
    apply lexLoop_append_ws w hw hws (s.data.length + 1) s.data _ 0 out _ h
    simp only [List.length_append]
    omega
  obtain ⟨n, hn⟩ := hmain
  have hlexm : lex (String.mk (s.data ++ w)) = .error (.unexpected n) := by
    simp only [lex]
    exact hn
  refine ⟨⟨n, hlexm⟩, ⟨n, ?_⟩, ⟨n, ?_⟩⟩
  · simp [ParamType.fromString, hlexm, Bind.bind, Except.bind]
  · simp [Fragment.fromString, hlexm, Bind.bind, Except.bind]

/-- **C9, witness.**  The trailing-whitespace theorem applied to
`"uint256"` (which lexes to a single TYPE token) and a single space. -/
theorem claim_C9_trailing_whitespace_witness :
    (∃ n, lex (String.mk ("uint256".data ++ [' '])) = .error (.unexpected n)) ∧
    (∃ n, ParamType.fromString (String.mk ("uint256".data ++ [' '])) false =
      .error (.unexpected n)) ∧
    (∃ n, Fragment.fromString (String.mk ("uint256".data ++ [' '])) =
      .error (.unexpected n)) :=
  claim_C9_trailing_whitespace "uint256" [' ']
    [⟨.TYPE, "uint256", 0, 0, -1, -1, -1, -1⟩] false rfl
    (by decide) (by decide)

theorem all_takeWhile (p : Char → Bool) (l : List Char) : (l.takeWhile p).all p = true := by
  induction l with
  | nil => rfl
  | cons x xs ih =>
    by_cases hx : p x <;> simp [List.takeWhile_cons, hx, ih]

theorem identFull_of_scan (c : Char) (cs : List Char) (hc : isIdStart c = true) :
    identFull (String.mk (c :: cs.takeWhile isIdCont)) = true := by
  simp [identFull, hc, all_takeWhile]

theorem mkParamType_ok (n t b : String) (i : Option Bool) (c : Option (List ParamType))
    (al : Option Int) (ac : Option ParamType) (pt : ParamType)
    (h : mkParamType n t b i c al ac = .ok pt) : pt = .mk n t b i c al ac := by
  simp only [mkParamType] at h
  split_ifs at h <;> simp_all

theorem mapM_ok_forall {α β : Type} (f : α → Except Err β) (P : β → Prop)
    (hf : ∀ a b, f a = .ok b → P b) :
    ∀ (l : List α) (l2 : List β), l.mapM f = .ok l2 → ∀ b ∈ l2, P b := by
  intro l
  induction l with
  | nil =>
    intro l2 h
    rw [List.mapM_nil] at h
    simp only [Pure.pure, Except.pure, Except.ok.injEq] at h
    subst h
    simp
  | cons a as ih =>
    intro l2 h
    rw [List.mapM_cons] at h
    cases hfa : f a with
    | error e => rw [hfa] at h; simp [Bind.bind, Except.bind] at h
    | ok b =>
      rw [hfa] at h
      cases hrest : as.mapM f with
      | error e =>
        rw [hrest] at h
        simp [Bind.bind, Except.bind] at h
      | ok bs =>
        rw [hrest] at h
        simp only [Bind.bind, Except.bind, Pure.pure, Except.pure, Except.ok.injEq] at h
        subst h
        intro x hx
        rcases List.mem_cons.mp hx with hx | hx
        · subst hx; exact hf a x hfa
        · exact ih bs hrest x hx

theorem namesOkList_of_forall (p : String → Bool) (l : List ParamType)
    (h : ∀ x ∈ l, ParamType.namesOk p x = true) : ParamType.namesOkList p l = true := by
  induction l with
  | nil => rfl
  | cons c cs ih =>
    rw [ParamType.namesOkList.eq_def]
    simp only [Bool.and_eq_true]
    exact ⟨h c (List.mem_cons_self c cs),
      ih (fun x hx => h x (List.mem_cons_of_mem _ hx))⟩

theorem namesOk_mk_of (p : String → Bool) (n t b : String) (i : Option Bool)
    (comps : Option (List ParamType)) (al : Option Int) (ac : Option ParamType)
    (hn : (n == "" || p n) = true)
    (hc : ∀ cs, comps = some cs → ParamType.namesOkList p cs = true)
    (ha : ∀ a, ac = some a → ParamType.namesOk p a = true) :
    ParamType.namesOk p (.mk n t b i comps al ac) = true := by
  rw [ParamType.namesOk.eq_def]
  simp only [Bool.and_eq_true]
  refine ⟨⟨hn, ?_⟩, ?_⟩
  · cases comps with
    | none => rfl
    | some cs => exact hc cs rfl
  · cases ac with
    | none => rfl
    | some a => exact ha a rfl

theorem hnm_of_not_bad (n : String) (hne : ¬ ((n ≠ "" && !identAtStart n) = true)) :
    (n == "" || identAtStart n) = true := by
  by_cases hz : n = ""
  · simp [hz]
  · simp only [Bool.or_eq_true, beq_iff_eq]
    by_cases hid : identAtStart n = true
    · right; exact hid
    · exfalso
      have hid2 : identAtStart n = false := by
        revert hid; cases identAtStart n <;> simp
      exact hne (by simp [hz, hid2])

theorem namesOk_of_mkParamType_ok (p : String → Bool) (n t b : String) (i : Option Bool)
    (comps : Option (List ParamType)) (al : Option Int) (ac : Option ParamType) (pt : ParamType)
    (h : mkParamType n t b i comps al ac = .ok pt)
    (hn : (n == "" || p n) = true)
    (hc : ∀ cs, comps = some cs → ParamType.namesOkList p cs = true)
    (ha : ∀ a, ac = some a → ParamType.namesOk p a = true) :
    ParamType.namesOk p pt = true := by
  have hpt := mkParamType_ok _ _ _ _ _ _ _ _ h
  subst hpt
  exact namesOk_mk_of p n t b i comps al ac hn hc ha

theorem fromObjectF_namesOk :
    ∀ (fuel : Nat) (obj : JsonParamType) (ai : Bool) (pt : ParamType),
      ParamType.fromObjectF fuel obj ai = .ok pt →
      ParamType.namesOk identAtStart pt = true := by
  intro fuel
  induction fuel with
  | zero => intro obj ai pt h; simp [ParamType.fromObjectF] at h
  | succ f ih =>
    intro obj ai pt h
    obtain ⟨onm, oin, oty, ocm⟩ := obj
    simp only [ParamType.fromObjectF, JsonParamType.name, JsonParamType.indexed,
      JsonParamType.type, JsonParamType.components, Bind.bind, Except.bind,
      Pure.pure, Except.pure] at h
    cases haty : arrayTypeMatch oty.data with
    | some pr =>
      obtain ⟨base, ds⟩ := pr
      rw [haty] at h
      simp only at h
      cases hach : ParamType.fromObjectF f (.mk none none (String.mk base) ocm) false with
      | error e =>
        rw [hach] at h
        rcases onm with _ | n <;> rcases oin with _ | b <;> (try simp only at h) <;>
          (try split_ifs at h) <;> simp at h
      | ok achild =>
        rw [hach] at h
        simp only at h
        rcases onm with _ | n <;> rcases oin with _ | b <;>
          (try simp only [Option.getD_none, Option.getD_some] at h) <;>
          (try split_ifs at h) <;>
          first
          | exact namesOk_of_mkParamType_ok identAtStart _ _ _ _ _ _ _ _ h
              (hnm_of_not_bad n (by assumption))
              (by intro cs hcs; simp at hcs)
              (by intro a ha; rw [Option.some.injEq] at ha; subst ha; exact ih _ _ _ hach)
          | exact namesOk_of_mkParamType_ok identAtStart _ _ _ _ _ _ _ _ h (by simp)
              (by intro cs hcs; simp at hcs)
              (by intro a ha; rw [Option.some.injEq] at ha; subst ha; exact ih _ _ _ hach)
          | simp at h
    | none =>
      rw [haty] at h
      simp only at h
      by_cases htp : (oty = "tuple" || (oty.take 5 = "tuple(" || oty.take 1 = "(")) = true
      · rw [if_pos htp] at h
        cases ocm with
        | some cs =>
          simp only at h
          cases hmap : cs.mapM (fun c => ParamType.fromObjectF f c false) with
          | error e =>
            rw [hmap] at h
            rcases onm with _ | n <;> rcases oin with _ | b <;> (try simp only at h) <;>
              (try split_ifs at h) <;> simp at h
          | ok l =>
            rw [hmap] at h
            simp only at h
            rcases onm with _ | n <;> rcases oin with _ | b <;>
              (try simp only [Option.getD_none, Option.getD_some] at h) <;>
              (try split_ifs at h) <;>
              first
              | exact namesOk_of_mkParamType_ok identAtStart _ _ _ _ _ _ _ _ h
                  (hnm_of_not_bad n (by assumption))
                  (by intro cs2 hcs2; rw [Option.some.injEq] at hcs2; subst hcs2;
                      exact namesOkList_of_forall _ _
                        (mapM_ok_forall _ _ (fun a b hab => ih a false b hab) cs _ hmap))
                  (by intro a ha; simp at ha)
              | exact namesOk_of_mkParamType_ok identAtStart _ _ _ _ _ _ _ _ h (by simp)
                  (by intro cs2 hcs2; rw [Option.some.injEq] at hcs2; subst hcs2;
                      exact namesOkList_of_forall _ _
                        (mapM_ok_forall _ _ (fun a b hab => ih a false b hab) cs _ hmap))
                  (by intro a ha; simp at ha)
              | simp at h
        | none =>
          simp only at h
          rcases onm with _ | n <;> rcases oin with _ | b <;>
            (try simp only [Option.getD_none, Option.getD_some] at h) <;>
            (try split_ifs at h) <;>
            first
            | exact namesOk_of_mkParamType_ok identAtStart _ _ _ _ _ _ _ _ h
                (hnm_of_not_bad n (by assumption))
                (by intro cs2 hcs2; simp at hcs2) (by intro a ha; simp at ha)
            | exact namesOk_of_mkParamType_ok identAtStart _ _ _ _ _ _ _ _ h (by simp)
                (by intro cs2 hcs2; simp at hcs2) (by intro a ha; simp at ha)
            | simp at h
      · rw [if_neg htp] at h
        cases hvb : verifyBasicType oty with
        | error e =>
          rw [hvb] at h
          rcases onm with _ | n <;> rcases oin with _ | b <;> (try simp only at h) <;>
            (try split_ifs at h) <;> simp at h
        | ok ty2 =>
          rw [hvb] at h
          simp only at h
          rcases onm with _ | n <;> rcases oin with _ | b <;>
            (try simp only [Option.getD_none, Option.getD_some] at h) <;>
            (try split_ifs at h) <;>
            first
            | exact namesOk_of_mkParamType_ok identAtStart _ _ _ _ _ _ _ _ h
                (hnm_of_not_bad n (by assumption))
                (by intro cs2 hcs2; simp at hcs2) (by intro a ha; simp at ha)
            | exact namesOk_of_mkParamType_ok identAtStart _ _ _ _ _ _ _ _ h (by simp)
                (by intro cs2 hcs2; simp at hcs2) (by intro a ha; simp at ha)
            | simp at h
theorem mem_modifyTok (l : List Tok) (i : Nat) (f : Tok → Tok) (t : Tok)
    (ht : t ∈ modifyTok l i f) : t ∈ l ∨ ∃ t0 ∈ l, t = f t0 := by
  unfold modifyTok at ht
  cases hg : l.get? i with
  | none => rw [hg] at ht; exact .inl ht
  | some t0 =>
    rw [hg] at ht
    rcases List.mem_or_eq_of_mem_set ht with h | h
    · exact .inl h
    · exact .inr ⟨t0, List.get?_mem hg, h⟩

theorem idTok_modify_pres (l : List Tok) (i : Nat) (f : Tok → Tok)
    (hf : ∀ t0, (f t0).type = t0.type ∧ (f t0).text = t0.text)
    (hl : ∀ t ∈ l, t.type = .ID → identFull t.text = true) :
    ∀ t ∈ modifyTok l i f, t.type = .ID → identFull t.text = true := by
  intro t ht hid
  rcases mem_modifyTok l i f t ht with h | ⟨t0, ht0, heq⟩
  · exact hl t h hid
  · subst heq
    rw [(hf t0).2]
    exact hl t0 ht0 (by rw [← (hf t0).1]; exact hid)

theorem lexStep_idTok (st : LexState) (off1 : Nat) (c : Char) (cs : List Char)
    (st2 : LexState) (off2 : Nat) (rest : List Char)
    (hst : ∀ t ∈ st.tokens, t.type = .ID → identFull t.text = true)
    (h : lexStep st off1 c cs = .ok (st2, off2, rest)) :
    ∀ t ∈ st2.tokens, t.type = .ID → identFull t.text = true := by
  simp only [lexStep] at h
  by_cases h1 : c = '('
  · simp only [if_pos h1] at h
    simp only [Except.ok.injEq, Prod.mk.injEq] at h
    obtain ⟨hst2, -⟩ := h
    subst hst2
    intro t ht hid
    simp only [List.mem_append, List.mem_singleton] at ht
    rcases ht with ht | ht
    · exact hst t ht hid
    · subst ht; simp at hid
  by_cases h2 : c = ')'
  · simp only [if_neg h1, if_pos h2] at h
    split at h
    · simp only [Except.ok.injEq, Prod.mk.injEq] at h
      obtain ⟨hst2, -⟩ := h
      subst hst2
      intro t ht hid
      simp only [List.mem_append, List.mem_singleton] at ht
      rcases ht with ht | ht
      · refine idTok_modify_pres _ _ _ ?_ ?_ t ht hid
        · intro t0; exact ⟨rfl, rfl⟩
        · exact idTok_modify_pres _ _ _ (fun t0 => ⟨rfl, rfl⟩) hst
      · subst ht; simp at hid
    · simp at h
    · simp at h
  by_cases h3 : c = ','
  · simp only [if_neg h1, if_neg h2, if_pos h3] at h
    split at h
    · simp only [Except.ok.injEq, Prod.mk.injEq] at h
      obtain ⟨hst2, -⟩ := h
      subst hst2
      intro t ht hid
      simp only [List.mem_append, List.mem_singleton] at ht
      rcases ht with ht | ht
      · refine idTok_modify_pres _ _ _ ?_ ?_ t ht hid
        · intro t0; exact ⟨rfl, rfl⟩
        · exact hst
      · subst ht; simp at hid
    · simp at h
  by_cases h4 : c = '['
  · simp only [if_neg h1, if_neg h2, if_neg h3, if_pos h4] at h
    simp only [Except.ok.injEq, Prod.mk.injEq] at h
    obtain ⟨hst2, -⟩ := h
    subst hst2
    intro t ht hid
    simp only [List.mem_append, List.mem_singleton] at ht
    rcases ht with ht | ht
    · exact hst t ht hid
    · subst ht; simp at hid
  by_cases h5 : c = ']'
  · simp only [if_neg h1, if_neg h2, if_neg h3, if_neg h4, if_pos h5] at h
    split at h
    · rename_i b hb
      split at h
      · rename_i hbt
        simp only [Except.ok.injEq, Prod.mk.injEq] at h
        obtain ⟨hst2, -⟩ := h
        subst hst2
        intro t ht hid
        simp only [List.mem_append, List.mem_singleton] at ht
        rcases ht with ht | ht
        · have ht2 := (List.dropLast_sublist _).subset ht
          split at ht2
          · rename_i t0 hnum
            split at ht2
            · dsimp only at ht2
              exact hst t ((List.dropLast_sublist _).subset ht2) hid
            · dsimp only at ht2
              exact hst t ht2 hid
          · dsimp only at ht2
            exact hst t ht2 hid
        · subst ht
          dsimp only at hid
          rw [hbt] at hid
          simp at hid
      · simp at h
    · simp at h
  by_cases h6 : c = '@'
  · simp only [if_neg h1, if_neg h2, if_neg h3, if_neg h4, if_neg h5, if_pos h6] at h
    simp only [Except.ok.injEq, Prod.mk.injEq] at h
    obtain ⟨hst2, -⟩ := h
    subst hst2
    intro t ht hid
    simp only [List.mem_append, List.mem_singleton] at ht
    rcases ht with ht | ht
    · exact hst t ht hid
    · subst ht; simp at hid
  by_cases h7 : isIdStart c = true
  · simp only [if_neg h1, if_neg h2, if_neg h3, if_neg h4, if_neg h5, if_neg h6,
      if_pos h7] at h
    simp only [Except.ok.injEq, Prod.mk.injEq] at h
    obtain ⟨hst2, -⟩ := h
    subst hst2
    intro t ht hid
    simp only [List.mem_append, List.mem_singleton] at ht
    rcases ht with ht | ht
    · exact hst t ht hid
    · subst ht
      exact identFull_of_scan c cs h7
  by_cases h8 : isDigitChar c = true
  · simp only [if_neg h1, if_neg h2, if_neg h3, if_neg h4, if_neg h5, if_neg h6,
      if_neg h7, if_pos h8] at h
    simp only [Except.ok.injEq, Prod.mk.injEq] at h
    obtain ⟨hst2, -⟩ := h
    subst hst2
    intro t ht hid
    simp only [List.mem_append, List.mem_singleton] at ht
    rcases ht with ht | ht
    · exact hst t ht hid
    · subst ht; simp at hid
  · simp only [if_neg h1, if_neg h2, if_neg h3, if_neg h4, if_neg h5, if_neg h6,
      if_neg h7, if_neg h8] at h
    simp at h

theorem lexLoop_idTok :
    ∀ (fuel : Nat) (st : LexState) (off : Nat) (r : List Char) (out : List Tok),
      (∀ t ∈ st.tokens, t.type = .ID → identFull t.text = true) →
      lexLoop fuel st off r = .ok out →
      ∀ t ∈ out, t.type = .ID → identFull t.text = true := by
  intro fuel
  induction fuel with
  | zero => intro st off r out hst h; simp [lexLoop] at h
  | succ f ih =>
    intro st off r out hst h
    cases r with
    | nil =>
      simp only [lexLoop, Except.ok.injEq] at h
      subst h
      exact hst
    | cons rh rt =>
      simp only [lexLoop] at h
      cases hdw : (rh :: rt).dropWhile isWsChar with
      | nil => rw [hdw] at h; simp at h
      | cons c cs =>
        rw [hdw] at h
        dsimp only at h
        cases hstep : lexStep st (off + ((rh :: rt).takeWhile isWsChar).length) c cs with
        | error e => rw [hstep] at h; simp at h
        | ok res =>
          obtain ⟨st2, off2, rest⟩ := res
          rw [hstep] at h
          dsimp only at h
          exact ih st2 off2 rest out (lexStep_idTok _ _ _ _ _ _ _ hst hstep) h

theorem lex_idTok (s : String) (out : List Tok) (h : lex s = .ok out) :
    ∀ t ∈ out, t.type = .ID → identFull t.text = true := by
  exact lexLoop_idTok _ _ _ _ _ (by intro t ht; simp at ht) h
theorem subTokenString_idTok (ts : List Tok) (a b : Nat)
    (hts : ∀ t ∈ ts, t.type = .ID → identFull t.text = true) :
    ∀ t ∈ subTokenString ts a b, t.type = .ID → identFull t.text = true := by
  intro t ht hid
  unfold subTokenString at ht
  simp only [List.mem_map] at ht
  obtain ⟨t0, ht0, heq⟩ := ht
  subst heq
  have ht0m : t0 ∈ ts :=
    ((List.take_sublist _ _).trans (List.drop_sublist _ _)).subset ht0
  exact hts t0 ht0m hid

theorem popParamsGo_idTok (ts : List Tok) (stop : Int)
    (hts : ∀ t ∈ ts, t.type = .ID → identFull t.text = true) :
    ∀ (fuel o : Nat) (acc items : List (List Tok)),
      (∀ it ∈ acc, ∀ t ∈ it, t.type = .ID → identFull t.text = true) →
      popParamsGo ts stop fuel o acc = .ok items →
      ∀ it ∈ items, ∀ t ∈ it, t.type = .ID → identFull t.text = true := by
  intro fuel
  induction fuel with
  | zero => intro o acc items hacc h; simp [popParamsGo] at h
  | succ f ih =>
    intro o acc items hacc h
    simp only [popParamsGo] at h
    split at h
    · split at h
      · rename_i t hgt
        refine ih _ _ _ ?_ h
        intro it hit
        simp only [List.mem_append, List.mem_singleton] at hit
        rcases hit with hit | hit
        · exact hacc it hit
        · subst hit
          exact subTokenString_idTok ts _ _ hts
      · simp at h
    · simp only [Except.ok.injEq] at h
      subst h
      exact hacc

theorem popParams_idTok (ts : List Tok) (o : Nat) (items : List (List Tok)) (o2 : Nat)
    (hts : ∀ t ∈ ts, t.type = .ID → identFull t.text = true)
    (h : popParams ts o = .ok (items, o2)) :
    ∀ it ∈ items, ∀ t ∈ it, t.type = .ID → identFull t.text = true := by
  simp only [popParams, Bind.bind, Except.bind] at h
  cases hpk : peekTok ts o with
  | error e => rw [hpk] at h; simp at h
  | ok top =>
    rw [hpk] at h
    dsimp only at h
    by_cases htop : top.type = .OPEN_PAREN
    · rw [if_pos htop] at h
      cases hgo : popParamsGo ts top.matchIdx (ts.length + 1) o [] with
      | error e => rw [hgo] at h; simp at h
      | ok its =>
        rw [hgo] at h
        simp only [Except.ok.injEq, Prod.mk.injEq] at h
        obtain ⟨heq, -⟩ := h
        subst heq
        exact popParamsGo_idTok ts top.matchIdx hts _ _ _ _
          (by intro it hit; simp at hit) hgo
    · rw [if_neg htop] at h
      simp at h

theorem peekType_ID_identFull (ts : List Tok) (o : Nat) (n : String)
    (hts : ∀ t ∈ ts, t.type = .ID → identFull t.text = true)
    (hpk : peekType ts o .ID = some n) : identFull n = true := by
  unfold peekType at hpk
  cases hg : ts.get? o with
  | none => rw [hg] at hpk; simp at hpk
  | some t =>
    rw [hg] at hpk
    dsimp only at hpk
    by_cases htt : t.type = .ID
    · rw [if_pos htt] at hpk
      rw [Option.some.injEq] at hpk
      subst hpk
      exact hts t (List.get?_mem hg) htt
    · rw [if_neg htt] at hpk
      simp at hpk

theorem mapM_ok_forall_mem {α β : Type} (f : α → Except Err β) (P : β → Prop) :
    ∀ (l : List α) (l2 : List β),
      (∀ a ∈ l, ∀ b, f a = .ok b → P b) →
      l.mapM f = .ok l2 → ∀ b ∈ l2, P b := by
  intro l
  induction l with
  | nil =>
    intro l2 _ h
    rw [List.mapM_nil] at h
    simp only [Pure.pure, Except.pure, Except.ok.injEq] at h
    subst h
    simp
  | cons a as ihl =>
    intro l2 hf h
    rw [List.mapM_cons] at h
    simp only [Bind.bind, Except.bind, Pure.pure, Except.pure] at h
    cases hfa : f a with
    | error e => rw [hfa] at h; simp at h
    | ok b =>
      rw [hfa] at h
      dsimp only at h
      cases hmm : as.mapM f with
      | error e => rw [hmm] at h; simp at h
      | ok bs =>
        rw [hmm] at h
        simp only [Except.ok.injEq] at h
        subst h
        intro x hx
        rcases List.mem_cons.mp hx with hx | hx
        · subst hx
          exact hf a (List.mem_cons_self a as) x hfa
        · exact ihl bs (fun a2 ha2 => hf a2 (List.mem_cons_of_mem _ ha2)) hmm x hx

theorem arrayLoop_namesOk (p : String → Bool) (ts : List Tok) :
    ∀ (fuel o : Nat) (ty baseTy : String) (comps : Option (List ParamType))
      (alen : Option Int) (achild : Option ParamType)
      (o3 : Nat) (ty3 baseTy3 : String) (comps3 : Option (List ParamType))
      (alen3 : Option Int) (achild3 : Option ParamType),
      (∀ cs, comps = some cs → ParamType.namesOkList p cs = true) →
      (∀ a, achild = some a → ParamType.namesOk p a = true) →
      arrayLoop ts fuel o ty baseTy comps alen achild =
        .ok (o3, ty3, baseTy3, comps3, alen3, achild3) →
      (∀ cs, comps3 = some cs → ParamType.namesOkList p cs = true) ∧
      (∀ a, achild3 = some a → ParamType.namesOk p a = true) := by
  intro fuel
  induction fuel with
  | zero =>
    intro o ty baseTy comps alen achild o3 ty3 baseTy3 comps3 alen3 achild3 hc ha h
    simp [arrayLoop] at h
  | succ f ih =>
    intro o ty baseTy comps alen achild o3 ty3 baseTy3 comps3 alen3 achild3 hc ha h
    simp only [arrayLoop, Bind.bind, Except.bind] at h
    split at h
    · split at h
      · rename_i t hgt
        split at h
        · rename_i htb
          cases hmk : mkParamType "" ty baseTy none comps alen achild with
          | error e => rw [hmk] at h; simp at h
          | ok child =>
            rw [hmk] at h
            dsimp only at h
            refine ih _ _ _ _ _ _ _ _ _ _ _ _ ?_ ?_ h
            · intro cs hcs; simp at hcs
            · intro a hax
              rw [Option.some.injEq] at hax
              subst hax
              have hchild := mkParamType_ok _ _ _ _ _ _ _ _ hmk
              subst hchild
              exact namesOk_mk_of p "" ty baseTy none comps alen achild (by simp) hc ha
        · simp only [Except.ok.injEq, Prod.mk.injEq] at h
          obtain ⟨-, -, -, h4, -, h6⟩ := h
          subst h4
          subst h6
          exact ⟨hc, ha⟩
      · simp only [Except.ok.injEq, Prod.mk.injEq] at h
        obtain ⟨-, -, -, h4, -, h6⟩ := h
        subst h4
        subst h6
        exact ⟨hc, ha⟩
    · simp only [Except.ok.injEq, Prod.mk.injEq] at h
      obtain ⟨-, -, -, h4, -, h6⟩ := h
      subst h4
      subst h6
      exact ⟨hc, ha⟩
theorem fromTokensF_namesOk :
    ∀ (fuel : Nat) (ts : List Tok) (ai : Bool) (pt : ParamType),
      (∀ t ∈ ts, t.type = .ID → identFull t.text = true) →
      ParamType.fromTokensF fuel ts ai = .ok pt →
      ParamType.namesOk identFull pt = true := by
  intro fuel
  induction fuel with
  | zero => intro ts ai pt hts h; simp [ParamType.fromTokensF] at h
  | succ f ih =>
    intro ts ai pt hts h
    simp only [ParamType.fromTokensF, Bind.bind, Except.bind, Pure.pure, Except.pure] at h
    cases hkw : consumeKeywords ts 0 ["tuple"] with
    | error e => rw [hkw] at h; simp at h
    | ok r1 =>
      obtain ⟨kws, o1⟩ := r1
      rw [hkw] at h
      dsimp only at h
      by_cases htup : (kws.contains "tuple" || (peekType ts o1 .OPEN_PAREN).isSome) = true
      · rw [if_pos htup] at h
        cases hpp : popParams ts o1 with
        | error e => rw [hpp] at h; simp at h
        | ok r2 =>
          obtain ⟨items, o2⟩ := r2
          rw [hpp] at h
          dsimp only at h
          cases hmap : items.mapM (fun it => ParamType.fromTokensF f it false) with
          | error e => rw [hmap] at h; simp at h
          | ok comps =>
            rw [hmap] at h
            dsimp only at h
            have hcompsOk : ParamType.namesOkList identFull comps = true := by
              refine namesOkList_of_forall _ _ ?_
              refine mapM_ok_forall_mem _ _ items comps ?_ hmap
              intro it hit b hb
              exact ih it false b (popParams_idTok ts o1 items o2 hts hpp it hit) hb
            split at h
            · simp at h
            · rename_i res hal
              obtain ⟨o3, ty3, baseTy3, comps3, alen3, achild3⟩ := res
              have hAL := arrayLoop_namesOk identFull ts _ _ _ _ _ _ _ _ _ _ _ _ _
                (by intro cs hcs; rw [Option.some.injEq] at hcs; subst hcs; exact hcompsOk)
                (by intro a hax; simp at hax) hal
              dsimp only at h
              cases hkw2 : consumeKeywords ts o3 kwModifiers with
              | error e => rw [hkw2] at h; simp at h
              | ok r4 =>
                obtain ⟨kws2, o4⟩ := r4
                rw [hkw2] at h
                dsimp only at h
                by_cases hidx : kws2.contains "indexed" = true
                · rw [if_pos hidx] at h
                  by_cases hai : (!ai) = true
                  · rw [if_pos hai] at h; simp at h
                  · rw [if_neg hai] at h
                    try dsimp only at h
                    cases hpk : peekType ts o4 .ID with
                    | some n =>
                      rw [hpk] at h
                      dsimp only at h
                      by_cases hlft : ts.length - (o4 + 1) ≠ 0
                      · rw [if_pos hlft] at h; simp at h
                      · rw [if_neg hlft] at h
                        exact namesOk_of_mkParamType_ok identFull _ _ _ _ _ _ _ _ h
                          (by simp [peekType_ID_identFull ts o4 n hts hpk]) hAL.1 hAL.2
                    | none =>
                      rw [hpk] at h
                      dsimp only at h
                      by_cases hlft : ts.length - o4 ≠ 0
                      · rw [if_pos hlft] at h; simp at h
                      · rw [if_neg hlft] at h
                        exact namesOk_of_mkParamType_ok identFull _ _ _ _ _ _ _ _ h
                          (by simp) hAL.1 hAL.2
                · rw [if_neg hidx] at h
                  try dsimp only at h
                  cases hpk : peekType ts o4 .ID with
                  | some n =>
                    rw [hpk] at h
                    dsimp only at h
                    by_cases hlft : ts.length - (o4 + 1) ≠ 0
                    · rw [if_pos hlft] at h; simp at h
                    · rw [if_neg hlft] at h
                      exact namesOk_of_mkParamType_ok identFull _ _ _ _ _ _ _ _ h
                        (by simp [peekType_ID_identFull ts o4 n hts hpk]) hAL.1 hAL.2
                  | none =>
                    rw [hpk] at h
                    dsimp only at h
                    by_cases hlft : ts.length - o4 ≠ 0
                    · rw [if_pos hlft] at h; simp at h
                    · rw [if_neg hlft] at h
                      exact namesOk_of_mkParamType_ok identFull _ _ _ _ _ _ _ _ h
                        (by simp) hAL.1 hAL.2
      · rw [if_neg htup] at h
        cases hpt2 : popType ts o1 .TYPE with
        | error e => rw [hpt2] at h; simp at h
        | ok r2 =>
          obtain ⟨t, o2⟩ := r2
          rw [hpt2] at h
          dsimp only at h
          cases hvb : verifyBasicType t with
          | error e => rw [hvb] at h; simp at h
          | ok ty =>
            rw [hvb] at h
            dsimp only at h
            split at h
            · simp at h
            · rename_i res hal
              obtain ⟨o3, ty3, baseTy3, comps3, alen3, achild3⟩ := res
              have hAL := arrayLoop_namesOk identFull ts _ _ _ _ _ _ _ _ _ _ _ _ _
                (by intro cs hcs; simp at hcs)
                (by intro a hax; simp at hax) hal
              dsimp only at h
              cases hkw2 : consumeKeywords ts o3 kwModifiers with
              | error e => rw [hkw2] at h; simp at h
              | ok r4 =>
                obtain ⟨kws2, o4⟩ := r4
                rw [hkw2] at h
                dsimp only at h
                by_cases hidx : kws2.contains "indexed" = true
                · rw [if_pos hidx] at h
                  by_cases hai : (!ai) = true
                  · rw [if_pos hai] at h; simp at h
                  · rw [if_neg hai] at h
                    try dsimp only at h
                    cases hpk : peekType ts o4 .ID with
                    | some n =>
                      rw [hpk] at h
                      dsimp only at h
                      by_cases hlft : ts.length - (o4 + 1) ≠ 0
                      · rw [if_pos hlft] at h; simp at h
                      · rw [if_neg hlft] at h
                        exact namesOk_of_mkParamType_ok identFull _ _ _ _ _ _ _ _ h
                          (by simp [peekType_ID_identFull ts o4 n hts hpk]) hAL.1 hAL.2
                    | none =>
                      rw [hpk] at h
                      dsimp only at h
                      by_cases hlft : ts.length - o4 ≠ 0
                      · rw [if_pos hlft] at h; simp at h
                      · rw [if_neg hlft] at h
                        exact namesOk_of_mkParamType_ok identFull _ _ _ _ _ _ _ _ h
                          (by simp) hAL.1 hAL.2
                · rw [if_neg hidx] at h
                  try dsimp only at h
                  cases hpk : peekType ts o4 .ID with
                  | some n =>
                    rw [hpk] at h
                    dsimp only at h
                    by_cases hlft : ts.length - (o4 + 1) ≠ 0
                    · rw [if_pos hlft] at h; simp at h
                    · rw [if_neg hlft] at h
                      exact namesOk_of_mkParamType_ok identFull _ _ _ _ _ _ _ _ h
                        (by simp [peekType_ID_identFull ts o4 n hts hpk]) hAL.1 hAL.2
                  | none =>
                    rw [hpk] at h
                    dsimp only at h
                    by_cases hlft : ts.length - o4 ≠ 0
                    · rw [if_pos hlft] at h; simp at h
                    · rw [if_neg hlft] at h
                      exact namesOk_of_mkParamType_ok identFull _ _ _ _ _ _ _ _ h
                        (by simp) hAL.1 hAL.2
theorem fromString_namesOk (s : String) (ai : Bool) (pt : ParamType)
    (h : ParamType.fromString s ai = .ok pt) :
    ParamType.namesOk identFull pt = true := by
  simp only [ParamType.fromString, ParamType.fromTokens, Bind.bind, Except.bind] at h
  cases hlex : lex s with
  | error e => rw [hlex] at h; simp at h
  | ok ts =>
    rw [hlex] at h
    dsimp only at h
    exact fromTokensF_namesOk _ ts ai pt (lex_idTok s ts hlex) h

/-- C7 counterexample: the interchange-object path accepts the name
`"a b"`, which contains a space and so does not match the identifier
grammar in full - `regexIdentifier` is anchored only on the left. -/
theorem claim_C7_counterexample :
    ParamType.fromObject (.mk (some "a b") none "uint256" none) false =
      .ok (.mk "a b" "uint256" "uint256" none none none none) ∧
    identFull "a b" = false ∧ identAtStart "a b" = true :=
  ⟨rfl, rfl, rfl⟩

/-- C7 (amended): every `ParamType` constructed through the text path has
every name (its own and those of all nested components and array children)
fully matching the identifier grammar `[A-Za-z$_][A-Za-z0-9$_]*`; a
`ParamType` constructed through the interchange-object path only has every
name beginning with an identifier-start character, because
`regexIdentifier` is left-anchored with an unanchored `*`-quantified tail. -/
theorem claim_C7_amended :
    (∀ (s : String) (ai : Bool) (pt : ParamType),
      ParamType.fromString s ai = .ok pt → ParamType.namesOk identFull pt = true) ∧
    (∀ (obj : JsonParamType) (ai : Bool) (pt : ParamType),
      ParamType.fromObject obj ai = .ok pt → ParamType.namesOk identAtStart pt = true) := by
  constructor
  · exact fromString_namesOk
  · intro obj ai pt h
    simp only [ParamType.fromObject] at h
    exact fromObjectF_namesOk _ obj ai pt h

theorem claim_C7_amended_witness :
    ParamType.namesOk identFull (.mk "owner" "uint256" "uint256" none none none none) = true ∧
    ParamType.namesOk identAtStart (.mk "a b" "uint256" "uint256" none none none none) = true :=
  ⟨claim_C7_amended.1 "uint256 owner" false
      (.mk "owner" "uint256" "uint256" none none none none) rfl,
    claim_C7_amended.2 (.mk (some "a b") none "uint256" none) false
      (.mk "a b" "uint256" "uint256" none none none none) rfl⟩
